import Mathlib

/-!
# Verification of the vaultwarden-webdav backup manager (`src/app/main.py`)

This file gives a shallow embedding, in Lean 4, of the backup/restore/retention
core of `src/app/main.py` and proves (or refutes) the specification claims
about it.

Modelling conventions:
* Python `datetime` values are embedded as a `PyDateTime` record of numeric
  fields; instants are compared on a single (Asia/Shanghai local) timeline,
  measured in integer seconds (`toEpochSec`).  `timedelta.days` is floored
  division by 86400, as in Python.
* `datetime.strptime(s, "%Y%m%d_%H%M%S")` is embedded with the exact per-field
  regular expressions of CPython's `_strptime.TimeRE` (`%Y` = four digits,
  `%m` = `1[0-2]|0[1-9]|[1-9]`, etc.), with the regex engine's leftmost
  backtracking priority (alternatives tried in order, the first complete path
  through the pattern wins), the "unconverted data remains" whole-string
  check, and the `datetime(...)` constructor's range validation.
* `strftime("%Y%m%d_%H%M%S")` is embedded with `%Y` rendered as an unpadded
  decimal (glibc behaviour) and the remaining fields zero-padded to width two.
* Stateful pipeline code (`perform_backup`, `process_restore_file`,
  `download_and_restore`, `apply_retention_policy`'s deletion loop, the
  scheduler binding) is embedded as pure functions from an environment
  (recording the outcome of each external effect: subprocess calls, Fernet
  decryption, tar extraction, WebDAV transfers) to a trace of events plus the
  resulting filesystem/scheduler state.  `try/except/finally` becomes explicit
  branching; an external step that can fail midway is given the three-valued
  outcome `ExtOutcome` (`ok`, fail without creating its output file, fail
  after creating it).
-/

namespace VW

/-! ## Characters, digits and splitting -/

/-- Numeric value of an ASCII digit character. -/
def chDig (c : Char) : Nat := c.toNat - 48

/-- Is `c` an ASCII digit (the characters matched by `\d` on this input set). -/
def isDig (c : Char) : Bool := decide ('0' ≤ c) && decide (c ≤ '9')

/-- The digit character for `d` (`0 ≤ d ≤ 9`). -/
def digitChar (d : Nat) : Char := Char.ofNat (48 + d)

/-- Is `c` a digit whose value lies in `[lo, hi]`. -/
def digRange (c : Char) (lo hi : Nat) : Bool :=
  isDig c && decide (lo ≤ chDig c) && decide (chDig c ≤ hi)

/-- Python `str.split(sep)` for a one-character separator, on char lists:
`"a..b".split('.') = ["a", "", "b"]`, `"".split('.') = [""]`. -/
def splitChar (sep : Char) : List Char → List (List Char)
  | [] => [[]]
  | c :: r =>
    if c = sep then [] :: splitChar sep r
    else
      match splitChar sep r with
      | h :: t => (c :: h) :: t
      | [] => [[c]]

/-- Python `str.endswith(suf)`. -/
def strEndsWith (s suf : String) : Bool := suf.data.isSuffixOf s.data

/-- Python string comparison `l₁ < l₂`: lexicographic by code point. -/
def strLtList : List Char → List Char → Bool
  | [], [] => false
  | [], _ :: _ => true
  | _ :: _, [] => false
  | a :: r, b :: s => if a < b then true else if b < a then false else strLtList r s

/-- Python `a < b` on strings. -/
def strLt (a b : String) : Bool := strLtList a.data b.data

/-- The descending comparator Python's `sort(reverse=True)` realizes on
names: `a` may come before `b` iff `¬ (a < b)`. -/
def nameDesc (a b : String) : Bool := !strLt a b

/-- Python `str.replace(pat, rep)`: replace non-overlapping occurrences left to
right (used with the non-empty pattern `".enc"`). -/
def replaceAll (pat rep : List Char) : List Char → List Char
  | [] => []
  | c :: r =>
    if pat ≠ [] ∧ pat.isPrefixOf (c :: r) then
      rep ++ replaceAll pat rep ((c :: r).drop pat.length)
    else
      c :: replaceAll pat rep r
termination_by l => l.length
decreasing_by
  · simp only [List.length_drop, List.length_cons]
    have : pat.length ≥ 1 := by
      rcases pat with _ | ⟨p, ps⟩
      · simp at *
      · simp
    omega
  · simp

/-! ## Dates and times -/

/-- The fields of a Python `datetime` (sub-second fields are never produced by
the format at hand). -/
structure PyDateTime where
  year : Nat
  month : Nat
  day : Nat
  hour : Nat
  minute : Nat
  second : Nat
deriving DecidableEq, Repr

/-- Gregorian leap year, as in Python's `calendar.isleap`. -/
def isLeapYear (y : Nat) : Bool :=
  y % 4 = 0 && (y % 100 ≠ 0 || y % 400 = 0)

/-- Days in a month, as validated by the `datetime` constructor. -/
def daysInMonth (y m : Nat) : Nat :=
  if m = 2 then (if isLeapYear y then 29 else 28)
  else if m = 4 ∨ m = 6 ∨ m = 9 ∨ m = 11 then 30
  else 31

/-- The `datetime(year, month, day, hour, minute, second)` constructor: range
validation, raising (`none`) on out-of-range fields. -/
def mkPyDateTime (y mo d h mi s : Nat) : Option PyDateTime :=
  if 1 ≤ y ∧ y ≤ 9999 ∧ 1 ≤ mo ∧ mo ≤ 12 ∧ 1 ≤ d ∧ d ≤ daysInMonth y mo
     ∧ h ≤ 23 ∧ mi ≤ 59 ∧ s ≤ 59
  then some ⟨y, mo, d, h, mi, s⟩ else none

/-! ### The `strptime` field matchers

Each matcher returns the list of `(value, remaining input)` pairs its
alternatives can produce, in the priority order of CPython's `TimeRE`
patterns.  The overall match is the first complete path (regex backtracking
order), i.e. the head of the flattened candidate list. -/

/-- `%Y`: `\d\d\d\d`. -/
def matchY : List Char → List (Nat × List Char)
  | a :: b :: c :: d :: r =>
    if isDig a && isDig b && isDig c && isDig d then
      [(1000 * chDig a + 100 * chDig b + 10 * chDig c + chDig d, r)]
    else []
  | _ => []

/-- `%m`: `1[0-2]|0[1-9]|[1-9]`. -/
def matchM : List Char → List (Nat × List Char)
  | c1 :: c2 :: r =>
    (if c1 = '1' && digRange c2 0 2 then [(10 + chDig c2, r)] else []) ++
    (if c1 = '0' && digRange c2 1 9 then [(chDig c2, r)] else []) ++
    (if digRange c1 1 9 then [(chDig c1, c2 :: r)] else [])
  | [c1] => if digRange c1 1 9 then [(chDig c1, [])] else []
  | [] => []

/-- `%d`: `3[01]|[12]\d|0[1-9]|[1-9]`. -/
def matchD : List Char → List (Nat × List Char)
  | c1 :: c2 :: r =>
    (if c1 = '3' && digRange c2 0 1 then [(30 + chDig c2, r)] else []) ++
    (if digRange c1 1 2 && isDig c2 then [(10 * chDig c1 + chDig c2, r)] else []) ++
    (if c1 = '0' && digRange c2 1 9 then [(chDig c2, r)] else []) ++
    (if digRange c1 1 9 then [(chDig c1, c2 :: r)] else [])
  | [c1] => if digRange c1 1 9 then [(chDig c1, [])] else []
  | [] => []

/-- `%H`: `2[0-3]|[0-1]\d|\d`. -/
def matchH : List Char → List (Nat × List Char)
  | c1 :: c2 :: r =>
    (if c1 = '2' && digRange c2 0 3 then [(20 + chDig c2, r)] else []) ++
    (if digRange c1 0 1 && isDig c2 then [(10 * chDig c1 + chDig c2, r)] else []) ++
    (if isDig c1 then [(chDig c1, c2 :: r)] else [])
  | [c1] => if isDig c1 then [(chDig c1, [])] else []
  | [] => []

/-- `%M`: `[0-5]\d|\d`. -/
def matchMin : List Char → List (Nat × List Char)
  | c1 :: c2 :: r =>
    (if digRange c1 0 5 && isDig c2 then [(10 * chDig c1 + chDig c2, r)] else []) ++
    (if isDig c1 then [(chDig c1, c2 :: r)] else [])
  | [c1] => if isDig c1 then [(chDig c1, [])] else []
  | [] => []

/-- `%S`: `6[0-1]|[0-5]\d|\d` (leap seconds pass the regex and are rejected by
the `datetime` constructor). -/
def matchS : List Char → List (Nat × List Char)
  | c1 :: c2 :: r =>
    (if c1 = '6' && digRange c2 0 1 then [(60 + chDig c2, r)] else []) ++
    (if digRange c1 0 5 && isDig c2 then [(10 * chDig c1 + chDig c2, r)] else []) ++
    (if isDig c1 then [(chDig c1, c2 :: r)] else [])
  | [c1] => if isDig c1 then [(chDig c1, [])] else []
  | [] => []

/-- A literal character in the pattern. -/
def matchLit (ch : Char) : List Char → List (List Char)
  | [] => []
  | c :: r => if c = ch then [r] else []

/-- Raw field tuple produced by the regex: (Y, m, d, H, M, S). -/
abbrev RawDT := Nat × Nat × Nat × Nat × Nat × Nat

/-- All complete paths of the `"%Y%m%d_%H%M%S"` regex through `l`, in
backtracking priority order, each with its leftover input. -/
def dtCandidates (l : List Char) : List (RawDT × List Char) :=
  (matchY l).flatMap fun yr =>
  (matchM yr.2).flatMap fun mo =>
  (matchD mo.2).flatMap fun dy =>
  (matchLit '_' dy.2).flatMap fun l4 =>
  (matchH l4).flatMap fun hr =>
  (matchMin hr.2).flatMap fun mi =>
  (matchS mi.2).map fun se => ((yr.1, mo.1, dy.1, hr.1, mi.1, se.1), se.2)

/-- The tail of `strptime` applied to `re.match`'s result: no match raises;
a match must have consumed the whole string ("unconverted data remains");
then the `datetime` constructor validates the fields. -/
def strptimeOfCand : Option (RawDT × List Char) → Option PyDateTime
  | none => none
  | some (v, rest) =>
    if rest = [] then mkPyDateTime v.1 v.2.1 v.2.2.1 v.2.2.2.1 v.2.2.2.2.1 v.2.2.2.2.2
    else none

/-- `datetime.strptime(s, "%Y%m%d_%H%M%S")`: `re.match` takes the first
candidate (backtracking priority order), then `strptimeOfCand`. -/
def strptimeYmdHMS (l : List Char) : Option PyDateTime :=
  strptimeOfCand (dtCandidates l).head?

/-- The indexing-and-strptime tail of `parse_backup_date`: with at least
three `'_'`-separated parts, `strptime(parts[2] + "_" + parts[3])`; an
`IndexError` (missing `parts[3]`) or `strptime` failure yields `None`. -/
def pyStrptimePick (parts : List (List Char)) : Option PyDateTime :=
  if parts.length ≥ 3 then
    match parts.get? 2, parts.get? 3 with
    | some ds, some ts => strptimeYmdHMS (ds ++ '_' :: ts)
    | _, _ => none
  else none

/-- `parse_backup_date` (src/app/main.py:167-180): take the part of the file
name before the first `'.'`, split it on `'_'`, and apply `pyStrptimePick`.
The `tzinfo` replacement does not change the embedded wall-clock fields. -/
def parseBackupDate (s : String) : Option PyDateTime :=
  pyStrptimePick (splitChar '_' ((splitChar '.' s.data).headD []))

/-! ### Formatting (`get_current_time_str`'s pattern) -/

/-- Decimal digits of `n`, most significant first, no padding. -/
def natDigits (n : Nat) : List Nat :=
  if _h : n < 10 then [n] else natDigits (n / 10) ++ [n % 10]
decreasing_by exact Nat.div_lt_self (by omega) (by omega)

/-- `%Y`: unpadded decimal rendering of the year. -/
def yearChars (y : Nat) : List Char := (natDigits y).map digitChar

/-- `%m`/`%d`/`%H`/`%M`/`%S`: zero-padded to width two. -/
def pad2 (n : Nat) : List Char :=
  if n < 10 then ['0', digitChar n] else [digitChar (n / 10), digitChar (n % 10)]

/-- The characters of `d.strftime("%Y%m%d_%H%M%S")`. -/
def fmtChars (d : PyDateTime) : List Char :=
  yearChars d.year ++ pad2 d.month ++ pad2 d.day ++
    '_' :: (pad2 d.hour ++ pad2 d.minute ++ pad2 d.second)

/-- `strftime("%Y%m%d_%H%M%S")` as a string (the body of
`get_current_time_str`, src/app/main.py:105-107, applied to any instant). -/
def formatYmdHMS (d : PyDateTime) : String := ⟨fmtChars d⟩

/-! ### Instants as seconds on one (local) timeline -/

/-- Leap years in `[1, y]`. -/
def leapCount (y : Nat) : Nat := y / 4 - y / 100 + y / 400

/-- Days in the months of year `y` strictly before month `m`. -/
def daysBeforeMonth (y m : Nat) : Nat :=
  (List.range (m - 1)).foldl (fun acc i => acc + daysInMonth y (i + 1)) 0

/-- Whole days from 0001-01-01 to the date of `d`. -/
def daysFromYear1 (d : PyDateTime) : Nat :=
  365 * (d.year - 1) + leapCount (d.year - 1) + daysBeforeMonth d.year d.month + (d.day - 1)

/-- The instant of `d` in seconds on the local timeline (all datetimes in the
program carry the same timezone, so relative comparisons are unaffected). -/
def toEpochSec (d : PyDateTime) : Int :=
  (daysFromYear1 d : Int) * 86400 + d.hour * 3600 + d.minute * 60 + d.second

/-! ## The GFS retention policy (`apply_retention_policy`, src/app/main.py:182-249) -/

/-- One entry of the parsed backup list built at src/app/main.py:190-199:
the remote name together with its parsed timestamp (as an instant). -/
structure Backup where
  name : String
  dt : Int
deriving DecidableEq, Repr

/-- One entry of the WebDAV listing (`client.ls(remote_dir, detail=True)`),
restricted to the fields the function reads. -/
structure RemoteFile where
  name : String
  isDirectory : Bool
deriving DecidableEq, Repr

/-- Does `pat` occur as a substring (Python `pat in name`). -/
def containsSub (pat l : List Char) : Bool := l.tails.any fun t => pat.isPrefixOf t

/-- The filter-and-parse loop of src/app/main.py:190-199: drop directories,
keep names containing `"vw_backup_"` whose timestamp parses. -/
def collectBackups (files : List RemoteFile) : List Backup :=
  files.filterMap fun f =>
    if f.isDirectory then none
    else if containsSub "vw_backup_".data f.name.data then
      (parseBackupDate f.name).map fun d => { name := f.name, dt := toEpochSec d }
    else none

/-- Comparator of `backups.sort(key=lambda x: x['dt'], reverse=True)`:
`a` may come before `b` iff `b.dt ≤ a.dt`. -/
def dtDesc (a b : Backup) : Bool := decide (b.dt ≤ a.dt)

/-- Insert `x` after every element that may precede it (stable insertion). -/
def insertStable (le : α → α → Bool) (x : α) : List α → List α
  | [] => [x]
  | y :: r => if le y x then y :: insertStable le x r else x :: y :: r

/-- A stable sort by the comparator `le` (`le a b` = `a` may come before
`b`): extensionally the sort Python's stable `list.sort` performs. -/
def stableSortBy (le : α → α → Bool) (l : List α) : List α :=
  l.foldl (fun acc x => insertStable le x acc) []

/-- The descending stable sort at src/app/main.py:202. -/
def sortBackupsDesc (l : List Backup) : List Backup := stableSortBy dtDesc l

/-- `timedelta.days` of `now - dt`: floored division by 86400. -/
def ageDays (now dt : Int) : Int := Int.fdiv (now - dt) 86400

/-- `start_window <= dt < end_window`. -/
def inWindow (s e dt : Int) : Bool := decide (s ≤ dt) && decide (dt < e)

/-- `now - timedelta(weeks=i+1)`. -/
def weekWindowStart (now : Int) (i : Nat) : Int := now - ((i : Int) + 1) * (7 * 86400)

/-- `now - timedelta(weeks=i)`. -/
def weekWindowEnd (now : Int) (i : Nat) : Int := now - (i : Int) * (7 * 86400)

/-- `now - timedelta(days=(i+1)*30)`. -/
def monthWindowStart (now : Int) (i : Nat) : Int := now - ((i : Int) + 1) * (30 * 86400)

/-- `now - timedelta(days=i*30)`. -/
def monthWindowEnd (now : Int) (i : Nat) : Int := now - (i : Int) * (30 * 86400)

/-- Step 1 of the keep-set (src/app/main.py:217-219): every backup younger
than 7 days, over the sorted list. -/
def sonKeepL (now : Int) (sorted : List Backup) : List String :=
  (sorted.filter fun b => decide (ageDays now b.dt < 7)).map (·.name)

/-- Step 2 (src/app/main.py:222-227): for each of the four weekly windows,
`candidates[0]` — the head of the descending-sorted list filtered to the
window — when the window is non-empty. -/
def weekKeepL (now : Int) (sorted : List Backup) : List String :=
  (List.range 4).filterMap fun i =>
    ((sorted.filter fun b =>
        inWindow (weekWindowStart now i) (weekWindowEnd now i) b.dt).head?).map (·.name)

/-- Step 3 (src/app/main.py:230-235): likewise for the twelve 30-day windows. -/
def monthKeepL (now : Int) (sorted : List Backup) : List String :=
  (List.range 12).filterMap fun i =>
    ((sorted.filter fun b =>
        inWindow (monthWindowStart now i) (monthWindowEnd now i) b.dt).head?).map (·.name)

/-- The `to_keep` set: union of the three tiers. -/
def toKeepL (now : Int) (sorted : List Backup) : List String :=
  sonKeepL now sorted ++ weekKeepL now sorted ++ monthKeepL now sorted

/-- The `to_delete` set (src/app/main.py:238-240): every backup whose name is
not in `to_keep`. -/
def toDeleteL (now : Int) (sorted : List Backup) : List String :=
  (sorted.filter fun b => !((toKeepL now sorted).contains b.name)).map (·.name)

/-- The keep/delete computation of src/app/main.py:202-240, on the parsed
backup list: sort descending; if empty return with nothing to do; otherwise
compute the keep and delete sets.  `to_keep` and `to_delete` are Python sets
of names; membership in the returned lists is what the claims are about. -/
def retentionCore (now : Int) (backupsIn : List Backup) : List String × List String :=
  let backups := sortBackupsDesc backupsIn
  if backups.isEmpty then ([], [])
  else (toKeepL now backups, toDeleteL now backups)

/-- `apply_retention_policy` up to the deletion loop: the `(to_keep,
to_delete)` name sets computed from a fresh listing at prune time `now`. -/
def applyRetentionPolicy (now : Int) (files : List RemoteFile) : List String × List String :=
  retentionCore now (collectBackups files)

/-- The deletion loop at src/app/main.py:243-246: `client.remove` for each
name; the loop body is not individually guarded, so the first failing removal
raises out of the loop into the surrounding `except` (which logs and
returns).  Returns the names on which a removal was attempted and whether an
exception was swallowed. -/
def attemptRemovals (fails : String → Bool) : List String → List String × Bool
  | [] => ([], false)
  | n :: rest =>
    if fails n then ([n], true)
    else
      let (a, f) := attemptRemovals fails rest
      (n :: a, f)

/-- `apply_retention_policy` including its deletion loop. -/
def applyRetentionExec (now : Int) (files : List RemoteFile) (fails : String → Bool) :
    List String × Bool :=
  attemptRemovals fails (applyRetentionPolicy now files).2

/-! ## The flat-count retention policy (spec §4.4, "Flat-count") -/

/-- Modelled from the spec: the effective max-count, "default 10 if
unset/non-positive".  The flat-count policy is absent from `src/app/main.py`
(the code implements only the GFS branch), so this component is taken from
the specification's words. -/
def flatEffMax (maxBackups : Option Int) : Nat :=
  match maxBackups with
  | some k => if k ≤ 0 then 10 else k.toNat
  | none => 10

/-- Modelled from the spec: the flat-count retention policy, absent from
`src/app/main.py`: "sort backups by name descending (equivalent to
chronological order given the fixed-width timestamp format); keep the first N
(default 10 if unset/non-positive); delete the rest." -/
def flatCountRetention (maxBackups : Option Int) (names : List String) :
    List String × List String :=
  let n := flatEffMax maxBackups
  let sorted := stableSortBy nameDesc names
  (sorted.take n, sorted.drop n)

/-! ## Pipeline event traces and filesystem state -/

/-- Observable events of one pipeline run, in program order. -/
inductive Ev
  | stopSvc                  -- `supervisorctl stop vaultwarden` (check=False)
  | startSvc                 -- `supervisorctl start vaultwarden` (check=False)
  | restartSvc (ok : Bool)   -- `restart_vaultwarden` (check=True)
  | decryptStep (ok : Bool)  -- `decrypt_file` (Fernet)
  | validateStep (ok : Bool) -- `tarfile.is_tarfile`
  | unpackStep (ok : Bool)   -- `tarfile.open(r:gz)` + `extractall`
  | exportDb (ok : Bool)     -- `sqlite3 ... .backup` subprocess (check=True)
  | packArchive (ok : Bool)  -- `tarfile.open(w:gz)` + `add`
  | encryptStep (ok : Bool)  -- `encrypt_file`
  | uploadStep (ok : Bool)   -- `client.upload_file`
  | retentionStep            -- `apply_retention_policy` (swallows its errors)
  | downloadStep (ok : Bool) -- `client.download_file`
  | notifyStep (success : Bool) -- `send_telegram_notify` (never raises)
deriving DecidableEq, Repr

/-- Events that invoke the service lifecycle start/restart operation. -/
def isLifecycleStart : Ev → Bool
  | .startSvc => true
  | .restartSvc _ => true
  | _ => false

/-- Events that invoke the service lifecycle stop operation. -/
def isStopSvc : Ev → Bool
  | .stopSvc => true
  | _ => false

/-- Data-touching steps of a backup: database export and archive packing. -/
def isDataTouch : Ev → Bool
  | .exportDb _ => true
  | .packArchive _ => true
  | _ => false

/-- Is this the upload step. -/
def isUpload : Ev → Bool
  | .uploadStep _ => true
  | _ => false

/-- `true` iff every event satisfying `q` is preceded by an event satisfying
`p` (scanning left to right: before the first `p`-event, no `q`-event may
occur). -/
def allAfter (p q : Ev → Bool) : List Ev → Bool
  | [] => true
  | e :: r => if p e then true else !q e && allAfter p q r

/-- Outcome of an external step that creates an output file: success, failure
before the file exists, or failure after the file was (partially) created. -/
inductive ExtOutcome
  | ok
  | failClean
  | failDirty
deriving DecidableEq, Repr

/-- Python truthiness of `cfg.get(key)` for a string-valued key: missing or
empty is falsy. -/
def truthy : Option String → Bool
  | none => false
  | some s => !(s == "")

/-- Remove a file if present (`os.path.exists` + `os.remove`): the scratch
directory state is the list of present paths. -/
def removeFile (f : String) (scratch : List String) : List String :=
  scratch.filter fun g => g ≠ f

/-- Best-effort cleanup of a list of tracked paths (each removal guarded). -/
def cleanupFiles (tracked : List String) (scratch : List String) : List String :=
  tracked.foldl (fun sc f => removeFile f sc) scratch

/-- `os.path.join(TEMP_DIR, name)`. -/
def tempPath (name : String) : String := "/tmp/backup_work/" ++ name

/-- Contents of the data directory: a map from archive-relative path to the
content stored there (`none` = no such entry). -/
abbrev DirState : Type := String → Option String

/-- Writing one extracted member: overwrite or create the entry at `k`. -/
def setEntry (k v : String) (m : DirState) : DirState :=
  fun q => if q = k then some v else m q

/-- `tar.extractall(path=DATA_DIR)`: members are written one after another
onto the existing directory; nothing is removed first. -/
def extractAll (members : List (String × String)) (m : DirState) : DirState :=
  members.foldl (fun acc kv => setEntry kv.1 kv.2 acc) m

/-- Last-write-wins view of an archive's member list. -/
def archLookup (members : List (String × String)) (k : String) : Option String :=
  (members.reverse.find? fun p => p.1 == k).map (·.2)

/-! ## The restore pipeline (`process_restore_file`, src/app/main.py:353-394) -/

/-- Environment of one `process_restore_file` run: its input path, the
configuration, and the outcome of each external step. -/
structure RestoreEnv where
  fileName : String             -- `local_file_path`
  cfgPassword : Option String   -- `cfg.get("encryption_password")`
  decryptOk : Bool              -- Fernet decryption outcome (wrong passphrase fails)
  isTar : Bool                  -- `tarfile.is_tarfile(work_file)`
  extractOk : Bool              -- `tarfile.open(r:gz)` + `extractall` outcome
  restartOk : Bool              -- `supervisorctl restart` outcome
  archive : List (String × String)  -- members unpacked on success

/-- Result of a restore run: the event trace, the data-directory state, the
scratch-directory state after the `finally` cleanup, and the paths the run
tracked for cleanup (`local_file_path` plus `temp_restored_files`). -/
structure RestoreResult where
  trace : List Ev
  data : DirState
  scratch : List String
  tracked : List String

/-- The decrypted-file path: `file_path.replace(".enc", "")`. -/
def stripEncName (s : String) : String := ⟨replaceAll ".enc".data [] s.data⟩

/-- Body of `process_restore_file` before the `finally` block: returns the
trace (the `except` arm appends the failure notification and the
`supervisorctl start`), the data state, the scratch state, and the tracked
temp files.  Control flow, in program order (src/app/main.py:358-388):
decrypt if the name ends in `.enc` (no configured passphrase or a Fernet
failure raises before the service is touched); `is_tarfile` check (raises
before the stop); `supervisorctl stop` (check=False); `extractall`;
`restart_vaultwarden` (its failure falls into the same `except`, which calls
`supervisorctl start`). -/
def processRestoreRaw (env : RestoreEnv) (scratch0 : List String)
    (data0 : DirState) :
    List Ev × DirState × List String × List String :=
  let encrypted := strEndsWith env.fileName ".enc"
  let decName := stripEncName env.fileName
  if encrypted && !truthy env.cfgPassword then
    ([Ev.notifyStep false, Ev.startSvc], data0, scratch0, [])
  else if encrypted && !env.decryptOk then
    ([Ev.decryptStep false, Ev.notifyStep false, Ev.startSvc], data0, scratch0, [])
  else
    let evs0 := if encrypted then [Ev.decryptStep true] else []
    let sc1 := if encrypted then decName :: scratch0 else scratch0
    let tmps := if encrypted then [decName] else []
    if !env.isTar then
      (evs0 ++ [Ev.validateStep false, Ev.notifyStep false, Ev.startSvc], data0, sc1, tmps)
    else if !env.extractOk then
      (evs0 ++ [Ev.validateStep true, Ev.stopSvc, Ev.unpackStep false,
                Ev.notifyStep false, Ev.startSvc], data0, sc1, tmps)
    else
      let dat1 := extractAll env.archive data0
      if env.restartOk then
        (evs0 ++ [Ev.validateStep true, Ev.stopSvc, Ev.unpackStep true,
                  Ev.restartSvc true, Ev.notifyStep true], dat1, sc1, tmps)
      else
        (evs0 ++ [Ev.validateStep true, Ev.stopSvc, Ev.unpackStep true,
                  Ev.restartSvc false, Ev.notifyStep false, Ev.startSvc], dat1, sc1, tmps)

/-- `process_restore_file`: the body followed by the `finally` block, which
removes `local_file_path` and every path in `temp_restored_files` on every
exit path. -/
def processRestoreFile (env : RestoreEnv) (scratch0 : List String)
    (data0 : DirState) : RestoreResult :=
  let (tr, dat, sc, tmps) := processRestoreRaw env scratch0 data0
  { trace := tr
    data := dat
    scratch := cleanupFiles tmps (removeFile env.fileName sc)
    tracked := env.fileName :: tmps }

/-! ## The backup pipeline (`perform_backup`, src/app/main.py:253-339) -/

/-- Environment of one `perform_backup` run. -/
structure BackupEnv where
  webdavUrl : Option String          -- `cfg.get("webdav_url")`
  encryptionPassword : Option String -- `cfg.get("encryption_password")`
  nowDT : PyDateTime                 -- the instant `get_current_time_str` formats
  dbExists : Bool                    -- `os.path.exists(.../db.sqlite3)`
  sqliteOutcome : ExtOutcome         -- the `sqlite3 .backup` subprocess
  packOk : Bool                      -- archive packing outcome
  encryptOutcome : ExtOutcome        -- `encrypt_file`
  uploadOk : Bool                    -- `client.upload_file`
  listing : List RemoteFile          -- listing seen by `apply_retention_policy`
  removeFails : String → Bool        -- per-name `client.remove` outcome

/-- Result of a backup run: event trace, scratch state after the `finally`
cleanup, and the final `tmp_files` list. -/
structure BackupResult where
  trace : List Ev
  scratch : List String
  tmpFiles : List String

/-- The archive name `f"vw_backup_{timestamp}.tar.gz"`. -/
def backupTarName (env : BackupEnv) : String :=
  "vw_backup_" ++ formatYmdHMS env.nowDT ++ ".tar.gz"

/-- Body of `perform_backup` (src/app/main.py:258-331) before the `finally`
block: (trace, tmp_files, scratch state).  The configured-endpoint check
returns before the `try`; `tar_path` is appended to `tmp_files` before
packing, the database copy and the encrypted copy only after their creating
step returned, so a step that fails after creating its file
(`ExtOutcome.failDirty`) leaves an untracked file; `client.exists/mkdir` is
guarded by its own `except` and never propagates; the retention pass swallows
its own errors (src/app/main.py:248-249). -/
def performBackupRaw (env : BackupEnv) (scratch0 : List String) :
    List Ev × List String × List String :=
  if !truthy env.webdavUrl then ([], [], scratch0)
  else
    let tarP := tempPath (backupTarName env)
    let dbP := tempPath "db.sqlite3"
    let tmp0 := [tarP]
    -- step 1: export the SQLite database
    match (if env.dbExists then env.sqliteOutcome else ExtOutcome.ok) with
    | ExtOutcome.failClean =>
      ([Ev.exportDb false, Ev.notifyStep false], tmp0, scratch0)
    | ExtOutcome.failDirty =>
      ([Ev.exportDb false, Ev.notifyStep false], tmp0, dbP :: scratch0)
    | ExtOutcome.ok =>
      let evs1 := if env.dbExists then [Ev.exportDb true] else []
      let sc1 := if env.dbExists then dbP :: scratch0 else scratch0
      let tmp1 := if env.dbExists then tmp0 ++ [dbP] else tmp0
      -- step 2: pack (tarfile.open creates tar_path, then the adds may fail)
      let sc2 := tarP :: sc1
      if !env.packOk then
        (evs1 ++ [Ev.packArchive false, Ev.notifyStep false], tmp1, sc2)
      else
        let evs2 := evs1 ++ [Ev.packArchive true]
        -- step 3: encrypt when a passphrase is configured
        let encP := tarP ++ ".enc"
        match (if truthy env.encryptionPassword then env.encryptOutcome
               else ExtOutcome.ok) with
        | ExtOutcome.failClean =>
          (evs2 ++ [Ev.encryptStep false, Ev.notifyStep false], tmp1, sc2)
        | ExtOutcome.failDirty =>
          (evs2 ++ [Ev.encryptStep false, Ev.notifyStep false], tmp1, encP :: sc2)
        | ExtOutcome.ok =>
          let enc := truthy env.encryptionPassword
          let evs3 := if enc then evs2 ++ [Ev.encryptStep true] else evs2
          let sc3 := if enc then encP :: sc2 else sc2
          let tmp2 := if enc then tmp1 ++ [encP] else tmp1
          -- step 4: upload
          if !env.uploadOk then
            (evs3 ++ [Ev.uploadStep false, Ev.notifyStep false], tmp2, sc3)
          else
            -- step 5: retention (its exceptions are swallowed), then notify
            (evs3 ++ [Ev.uploadStep true, Ev.retentionStep, Ev.notifyStep true],
             tmp2, sc3)

/-- `perform_backup`: the body followed by the `finally` block removing every
path in `tmp_files`. -/
def performBackup (env : BackupEnv) (scratch0 : List String) : BackupResult :=
  let (tr, tmps, sc) := performBackupRaw env scratch0
  { trace := tr, scratch := cleanupFiles tmps sc, tmpFiles := tmps }

/-! ## Restore from the remote store (`download_and_restore`,
src/app/main.py:396-415) -/

/-- Environment of one `download_and_restore` run: the remote file name, the
download outcome, and the environment of the inner restore. -/
structure DownloadEnv where
  fileName : String
  downloadOutcome : ExtOutcome
  cfgPassword : Option String
  decryptOk : Bool
  isTar : Bool
  extractOk : Bool
  restartOk : Bool
  archive : List (String × String)

/-- `download_and_restore`: download to `TEMP_DIR/filename`, then run
`process_restore_file` on it; a download failure is caught, logged and
notified, with no cleanup of the local path (the cleanup lives only in
`process_restore_file`'s `finally`). -/
def downloadAndRestore (env : DownloadEnv) (scratch0 : List String)
    (data0 : DirState) : RestoreResult :=
  let localPath := tempPath env.fileName
  match env.downloadOutcome with
  | ExtOutcome.ok =>
    let r := processRestoreFile
      { fileName := localPath, cfgPassword := env.cfgPassword,
        decryptOk := env.decryptOk, isTar := env.isTar,
        extractOk := env.extractOk, restartOk := env.restartOk,
        archive := env.archive }
      (localPath :: scratch0) data0
    { r with trace := Ev.downloadStep true :: r.trace }
  | ExtOutcome.failClean =>
    { trace := [Ev.downloadStep false, Ev.notifyStep false],
      data := data0, scratch := scratch0, tracked := [] }
  | ExtOutcome.failDirty =>
    { trace := [Ev.downloadStep false, Ev.notifyStep false],
      data := data0, scratch := localPath :: scratch0, tracked := [] }

/-! ## The scheduler binding (`schedule_backup_job` / `save_config`,
src/app/main.py:94-103 and 421-435) -/

/-- A JSON configuration value for the schedule fields. -/
inductive CfgVal
  | num (n : Int)
  | str (s : String)
deriving DecidableEq, Repr

/-- Whitespace stripped by `int(str)`. -/
def isPyWs (c : Char) : Bool := c = ' ' || c = '\t' || c = '\n' || c = '\r'

/-- Digits with single underscores allowed between digits, as accepted by the
Python `int` constructor. -/
def digitsValAux (acc : Nat) : List Char → Option Nat
  | [] => some acc
  | c :: r =>
    if isDig c then digitsValAux (10 * acc + chDig c) r
    else if c = '_' then
      match r with
      | d :: r' => if isDig d then digitsValAux (10 * acc + chDig d) r' else none
      | [] => none
    else none

/-- Parse a non-empty digit group. -/
def digitsVal : List Char → Option Nat
  | [] => none
  | c :: r => if isDig c then digitsValAux (chDig c) r else none

/-- `int(s)` on a string: strip whitespace, optional sign, decimal digits;
anything else raises (`none`). -/
def pyIntOfString (s : String) : Option Int :=
  let l := (s.data.dropWhile isPyWs).reverse.dropWhile isPyWs |>.reverse
  match l with
  | '+' :: r => (digitsVal r).map Int.ofNat
  | '-' :: r => (digitsVal r).map fun n => -(n : Int)
  | r => (digitsVal r).map Int.ofNat

/-- `int(v)` on a JSON value. -/
def pyInt : CfgVal → Option Int
  | .num n => some n
  | .str s => pyIntOfString s

/-- The schedule-related configuration fields (`cfg.get` returns the default
only when the key is absent). -/
structure SchedConfig where
  scheduleHour : Option CfgVal
  scheduleMinute : Option CfgVal

/-- The scheduler's single job slot (`id='backup_job'`): `none` when no job
is registered, otherwise the (hour, minute) of the registered cron trigger. -/
abbrev SchedState : Type := Option (Int × Int)

/-- `schedule_backup_job` (src/app/main.py:421-435): remove the existing job,
then `int(...)` both fields (a malformed value raises here, after the
removal), then `CronTrigger(hour=..., minute=...)` validates the ranges and
the job is added.  Returns the final job slot and whether the call returned
normally. -/
def scheduleBackupJob (cfg : SchedConfig) (_st : SchedState) : SchedState × Bool :=
  match pyInt (cfg.scheduleHour.getD (.num 3)), pyInt (cfg.scheduleMinute.getD (.num 0)) with
  | some h, some m =>
    if 0 ≤ h ∧ h ≤ 23 ∧ 0 ≤ m ∧ m ≤ 59 then (some (h, m), true)
    else (none, false)
  | _, _ => (none, false)

/-- `save_config` (src/app/main.py:94-103): persists the configuration, then
calls `schedule_backup_job` inside `try/except`, so a scheduling exception is
logged and swallowed; the scheduler ends in whatever state the call left. -/
def saveConfig (cfg : SchedConfig) (st : SchedState) : SchedState :=
  (scheduleBackupJob cfg st).1

/-! ## Claim-level predicates and concrete inputs -/

/-- The decryption stage of a restore fails: the input carries the encrypted
marker and either no passphrase is configured or Fernet decryption fails. -/
def restoreDecryptFails (env : RestoreEnv) : Bool :=
  strEndsWith env.fileName ".enc" && (!truthy env.cfgPassword || !env.decryptOk)

/-- A successful packing step. -/
def isPackDone : Ev → Bool
  | .packArchive ok => ok
  | _ => false

/-- The ordering claim of C2 on a backup trace: a (successful) stop precedes
any data-touching step, and a lifecycle start precedes any upload. -/
def backupStopStartClaim (tr : List Ev) : Prop :=
  allAfter isStopSvc isDataTouch tr = true ∧ allAfter isLifecycleStart isUpload tr = true

/-- The keep-set described by the spec's GFS clause, for a backup `b` of the
parsed listing `bs` at prune time `now`: younger than 7 days, or the
most-recent backup of one of the 4 weekly windows, or of one of the 12
30-day windows. -/
def gfsSpecKeep (now : Int) (bs : List Backup) (b : Backup) : Prop :=
  (now - b.dt < 7 * 86400) ∨
  (∃ i < 4, inWindow (weekWindowStart now i) (weekWindowEnd now i) b.dt = true ∧
     ∀ x ∈ bs, inWindow (weekWindowStart now i) (weekWindowEnd now i) x.dt = true →
       x.dt ≤ b.dt) ∨
  (∃ i < 12, inWindow (monthWindowStart now i) (monthWindowEnd now i) b.dt = true ∧
     ∀ x ∈ bs, inWindow (monthWindowStart now i) (monthWindowEnd now i) x.dt = true →
       x.dt ≤ b.dt)

/-- A fully successful configured backup environment (concrete input). -/
def backupEnvAllOk : BackupEnv :=
  { webdavUrl := some "https://dav.example.com/dav"
    encryptionPassword := some "pw"
    nowDT := ⟨2024, 1, 10, 12, 0, 0⟩
    dbExists := true
    sqliteOutcome := ExtOutcome.ok
    packOk := true
    encryptOutcome := ExtOutcome.ok
    uploadOk := true
    listing := []
    removeFails := fun _ => false }

/-- A fully successful plaintext restore whose archive does not mention the
pre-existing entry `"old-attachment"` (concrete input). -/
def restoreEnvOverlay : RestoreEnv :=
  { fileName := "vw_backup_20240101_120000.tar.gz"
    cfgPassword := none
    decryptOk := true
    isTar := true
    extractOk := true
    restartOk := true
    archive := [("db.sqlite3", "new-db")] }

/-- A remote restore whose download fails after creating the local file
(concrete input). -/
def dlEnvFailDirty : DownloadEnv :=
  { fileName := "vw_backup_20240101_120000.tar.gz"
    downloadOutcome := ExtOutcome.failDirty
    cfgPassword := none
    decryptOk := true
    isTar := true
    extractOk := true
    restartOk := true
    archive := [] }

/-- A listing of three parseable backups, all far older than 360 days at
`nowJan2024` (concrete input). -/
def filesOld3 : List RemoteFile :=
  [⟨"vw_backup_20200101_120000.tar.gz", false⟩,
   ⟨"vw_backup_20200102_120000.tar.gz", false⟩,
   ⟨"vw_backup_20200103_120000.tar.gz", false⟩]

/-- 2024-01-10 12:00:00 as an instant (concrete prune time). -/
def nowJan2024 : Int := toEpochSec ⟨2024, 1, 10, 12, 0, 0⟩

/-- A mixed listing: two young backups, one 10 days old, one 40 days old
(concrete input for the GFS keep-set claims). -/
def filesMixed : List RemoteFile :=
  [⟨"vw_backup_20240109_120000.tar.gz", false⟩,
   ⟨"vw_backup_20240108_090000.tar.gz", false⟩,
   ⟨"vw_backup_20231231_120000.tar.gz", false⟩,
   ⟨"vw_backup_20231201_120000.tar.gz", false⟩]

/-- Five flat-count backup names, days 1..5 of 2024-01 (concrete input). -/
def namesDays5 : List String :=
  ["vw_backup_20240101_120000.tar.gz",
   "vw_backup_20240102_120000.tar.gz",
   "vw_backup_20240103_120000.tar.gz",
   "vw_backup_20240104_120000.tar.gz",
   "vw_backup_20240105_120000.tar.gz"]

/-! # Theorems -/

/-! ## Cleanup helper lemmas -/

theorem mem_cleanupFiles_subset {tracked sc : List String} {x : String}
    (h : x ∈ cleanupFiles tracked sc) : x ∈ sc := by
  induction tracked generalizing sc with
  | nil => simpa [cleanupFiles] using h
  | cons t r ih =>
    have hx : x ∈ removeFile t sc := ih (by simpa [cleanupFiles] using h)
    exact (List.mem_filter.mp hx).1

theorem not_mem_removeFile_self (f : String) (sc : List String) :
    f ∉ removeFile f sc := by
  intro h
  have := (List.mem_filter.mp h).2
  simp at this

theorem not_mem_cleanupFiles_of_not_mem {tracked sc : List String} {x : String}
    (h : x ∉ sc) : x ∉ cleanupFiles tracked sc :=
  fun hx => h (mem_cleanupFiles_subset hx)

theorem cleanupFiles_cons (t : String) (r sc : List String) :
    cleanupFiles (t :: r) sc = cleanupFiles r (removeFile t sc) := rfl

theorem not_mem_cleanupFiles_self {tracked sc : List String} {f : String}
    (h : f ∈ tracked) : f ∉ cleanupFiles tracked sc := by
  induction tracked generalizing sc with
  | nil => cases h
  | cons t r ih =>
    rw [cleanupFiles_cons]
    rcases List.mem_cons.mp h with rfl | hr
    · exact not_mem_cleanupFiles_of_not_mem (not_mem_removeFile_self f sc)
    · exact ih hr

/-! ## C1: the restore pipeline invokes start/restart exactly once -/

/-- C1: on every execution of `process_restore_file` the service lifecycle
start/restart operation (`supervisorctl restart` in `restart_vaultwarden`, or
the `supervisorctl start` of the `except` arm) is invoked at least once, and
exactly once on each of the claimed exit paths: success, decryption failure
(missing or wrong passphrase), validation failure, and unpack failure. -/
theorem restore_lifecycle_exactly_once (env : RestoreEnv) (scratch0 : List String)
    (data0 : DirState) :
    1 ≤ (processRestoreFile env scratch0 data0).trace.countP isLifecycleStart
    ∧ (restoreDecryptFails env = true →
        (processRestoreFile env scratch0 data0).trace.countP isLifecycleStart = 1)
    ∧ (restoreDecryptFails env = false → env.isTar = false →
        (processRestoreFile env scratch0 data0).trace.countP isLifecycleStart = 1)
    ∧ (restoreDecryptFails env = false → env.isTar = true → env.extractOk = false →
        (processRestoreFile env scratch0 data0).trace.countP isLifecycleStart = 1)
    ∧ (restoreDecryptFails env = false → env.isTar = true → env.extractOk = true →
        env.restartOk = true →
        (processRestoreFile env scratch0 data0).trace.countP isLifecycleStart = 1) := by
  cases h1 : strEndsWith env.fileName ".enc" <;>
    cases h2 : truthy env.cfgPassword <;>
      cases h3 : env.decryptOk <;>
        cases h4 : env.isTar <;>
          cases h5 : env.extractOk <;>
            cases h6 : env.restartOk <;>
              simp [processRestoreFile, processRestoreRaw, restoreDecryptFails,
                h1, h2, h3, h4, h5, h6, isLifecycleStart, List.countP_cons]

/-- Witness for C1: a concrete successful restore, on which the lifecycle
operation count is exactly one. -/
theorem restore_lifecycle_exactly_once_witness :
    restoreDecryptFails restoreEnvOverlay = false
    ∧ (processRestoreFile restoreEnvOverlay
        ["/tmp/backup_work/vw_backup_20240101_120000.tar.gz"]
        (fun _ => none)).trace.countP isLifecycleStart = 1 :=
  ⟨by decide,
   (restore_lifecycle_exactly_once restoreEnvOverlay
      ["/tmp/backup_work/vw_backup_20240101_120000.tar.gz"] (fun _ => none)).2.2.2.2
     (by decide) (by decide) (by decide) (by decide)⟩

/-! ## C2: the backup pipeline and the service lifecycle -/

/-- C2 counterexample: on a concrete fully-successful configured backup run,
`perform_backup`'s trace has data-touching steps with no preceding (indeed
no) stop, and an upload with no preceding lifecycle start, so the claimed
orderings are false: the code never invokes the service lifecycle during a
backup. -/
theorem backup_stop_start_counterexample :
    ¬ backupStopStartClaim (performBackup backupEnvAllOk []).trace := by
  intro h
  have h1 := h.1
  revert h1
  decide

/-- C2 amended: `perform_backup` never invokes the service lifecycle at all —
no stop before the data-touching steps (the SQLite export runs online via
`sqlite3 .backup` with the service up) and no start at any point; the upload
step does begin only after packing completed. -/
theorem backup_never_touches_service (env : BackupEnv) (scratch0 : List String) :
    (performBackup env scratch0).trace.countP isStopSvc = 0
    ∧ (performBackup env scratch0).trace.countP isLifecycleStart = 0
    ∧ allAfter isPackDone isUpload (performBackup env scratch0).trace = true := by
  cases h1 : truthy env.webdavUrl <;>
    cases h2 : env.dbExists <;>
      cases h3 : env.sqliteOutcome <;>
        cases h4 : env.packOk <;>
          cases h5 : truthy env.encryptionPassword <;>
            cases h6 : env.encryptOutcome <;>
              cases h7 : env.uploadOk <;>
                simp [performBackup, performBackupRaw, h1, h2, h3, h4, h5, h6, h7,
                  isStopSvc, isLifecycleStart, isPackDone, isUpload, allAfter,
                  List.countP_cons]

/-! ## C7: scratch-file cleanup -/

/-- C7 counterexample: when the WebDAV download fails after creating the
local file, `download_and_restore` exits with the downloaded artifact still
present in the scratch area (its `except` arm performs no cleanup), starting
from an empty scratch directory. -/
theorem download_failure_leaves_scratch_file :
    (downloadAndRestore dlEnvFailDirty [] (fun _ => none)).scratch
      = ["/tmp/backup_work/vw_backup_20240101_120000.tar.gz"] := by decide

/-- C7 amended: every artifact a run records for cleanup is removed on every
exit path — `perform_backup` removes everything in `tmp_files`,
`process_restore_file` removes its input file and every tracked decrypted
copy, and a remote restore whose download succeeds removes the downloaded
file — but a step that fails while creating its output file (such as the
failed download of the counterexample) leaves that file untracked and
unremoved. -/
theorem tracked_scratch_files_removed :
    (∀ (env : BackupEnv) (scratch0 : List String),
       ∀ f ∈ (performBackup env scratch0).tmpFiles,
         f ∉ (performBackup env scratch0).scratch)
    ∧ (∀ (env : RestoreEnv) (scratch0 : List String) (data0 : DirState),
       ∀ f ∈ (processRestoreFile env scratch0 data0).tracked,
         f ∉ (processRestoreFile env scratch0 data0).scratch)
    ∧ (∀ (env : DownloadEnv) (scratch0 : List String) (data0 : DirState),
       env.downloadOutcome = ExtOutcome.ok →
       ∀ f ∈ (downloadAndRestore env scratch0 data0).tracked,
         f ∉ (downloadAndRestore env scratch0 data0).scratch) := by
  have hrestore : ∀ (env : RestoreEnv) (scratch0 : List String)
      (data0 : DirState),
      ∀ f ∈ (processRestoreFile env scratch0 data0).tracked,
        f ∉ (processRestoreFile env scratch0 data0).scratch := by
    intro env scratch0 data0 f hf
    rcases hE : processRestoreRaw env scratch0 data0 with ⟨tr, dat, sc, tmps⟩
    simp only [processRestoreFile, hE] at hf ⊢
    rcases List.mem_cons.mp hf with rfl | hmem
    · exact not_mem_cleanupFiles_of_not_mem (not_mem_removeFile_self _ sc)
    · exact not_mem_cleanupFiles_self hmem
  refine ⟨?_, hrestore, ?_⟩
  · intro env scratch0 f hf
    rcases hE : performBackupRaw env scratch0 with ⟨tr, tmps, sc⟩
    simp only [performBackup, hE] at hf ⊢
    exact not_mem_cleanupFiles_self hf
  · intro env scratch0 data0 hok f hf
    have : downloadAndRestore env scratch0 data0 =
        (let r := processRestoreFile
          { fileName := tempPath env.fileName, cfgPassword := env.cfgPassword,
            decryptOk := env.decryptOk, isTar := env.isTar,
            extractOk := env.extractOk, restartOk := env.restartOk,
            archive := env.archive } (tempPath env.fileName :: scratch0) data0
         { r with trace := Ev.downloadStep true :: r.trace }) := by
      simp [downloadAndRestore, hok]
    rw [this] at hf ⊢
    exact hrestore _ _ _ f hf

/-- Witness for C7's amended theorem: on the concrete successful remote
restore, the downloaded file is absent from the final scratch state. -/
theorem tracked_scratch_files_removed_witness :
    "/tmp/backup_work/vw_backup_20240101_120000.tar.gz"
      ∉ (downloadAndRestore { dlEnvFailDirty with downloadOutcome := ExtOutcome.ok }
          [] (fun _ => none)).scratch :=
  tracked_scratch_files_removed.2.2
    { dlEnvFailDirty with downloadOutcome := ExtOutcome.ok } [] (fun _ => none) rfl
    "/tmp/backup_work/vw_backup_20240101_120000.tar.gz" (by decide)

/-! ## C8: the scheduler binding -/

/-- C8 counterexample: updating the configuration with the non-numeric
schedule value `"not-a-cron"` removes the previously registered job and then
raises inside `int(...)`; the exception is swallowed by `save_config` and the
scheduler is left with no job registered — there is no fallback to 03:00. -/
theorem schedule_invalid_leaves_no_job :
    saveConfig ⟨some (.str "not-a-cron"), none⟩ (some (3, 0)) = none := by decide

/-- C8 amended: a configuration whose hour/minute fields parse as in-range
integers installs exactly one job at the configured time, and absent fields
default to 03:00; but a value on which `int(...)` raises aborts scheduling
after the old job was removed, leaving no job registered. -/
theorem schedule_job_install (st : SchedState) :
    (∀ h m : Int, 0 ≤ h → h ≤ 23 → 0 ≤ m → m ≤ 59 →
      saveConfig ⟨some (.num h), some (.num m)⟩ st = some (h, m))
    ∧ saveConfig ⟨none, none⟩ st = some (3, 0)
    ∧ (∀ s : String, pyIntOfString s = none →
      saveConfig ⟨some (.str s), none⟩ st = none) := by
  refine ⟨?_, by simp [saveConfig, scheduleBackupJob, pyInt], ?_⟩
  · intro h m h0 h23 m0 m59
    simp [saveConfig, scheduleBackupJob, pyInt, h0, h23, m0, m59]
  · intro s hs
    simp [saveConfig, scheduleBackupJob, pyInt, hs]

/-- Witness for C8's amended theorem: a concrete valid update registers the
job at 05:30. -/
theorem schedule_job_install_witness :
    saveConfig ⟨some (.num 5), some (.num 30)⟩ none = some (5, 30) :=
  (schedule_job_install none).1 5 30 (by decide) (by decide) (by decide) (by decide)

/-! ## C6: the retention deletion loop -/

theorem attemptRemovals_all_ok {fails : String → Bool} {td : List String}
    (h : ∀ n ∈ td, fails n = false) : attemptRemovals fails td = (td, false) := by
  induction td with
  | nil => rfl
  | cons n rest ih =>
    have hn := h n (List.mem_cons_self n rest)
    have hr := ih fun x hx => h x (List.mem_cons_of_mem n hx)
    simp [attemptRemovals, hn, hr]

theorem attemptRemovals_head_fail {fails : String → Bool} {n : String}
    (rest : List String) (h : fails n = true) :
    attemptRemovals fails (n :: rest) = ([n], true) := by
  simp [attemptRemovals, h]

/-- C6 counterexample: a concrete retention run with three backups to delete
on which every `client.remove` raises; only one deletion is attempted — the
failure aborts the loop, so the remaining sibling deletions are never
attempted, refuting independence. -/
theorem retention_remove_failure_aborts_loop :
    ((applyRetentionPolicy nowJan2024 filesOld3).2).length = 3
    ∧ (applyRetentionExec nowJan2024 filesOld3 (fun _ => true)).1.length = 1 := by
  decide

/-- C6 amended: deletions are attempted in order until the first failing
removal; the failure is logged and swallowed inside `apply_retention_policy`
(so the overall backup does not fail), but the deletions after the failing
one are not attempted: with no failures all deletions are attempted, and a
failure on the first name ends the pass after that single attempt. -/
theorem retention_deletions_until_first_failure (now : Int) (files : List RemoteFile)
    (fails : String → Bool) :
    ((∀ n ∈ (applyRetentionPolicy now files).2, fails n = false) →
      applyRetentionExec now files fails = ((applyRetentionPolicy now files).2, false))
    ∧ (∀ n rest, (applyRetentionPolicy now files).2 = n :: rest → fails n = true →
      applyRetentionExec now files fails = ([n], true)) := by
  constructor
  · intro h
    exact attemptRemovals_all_ok h
  · intro n rest hd hn
    unfold applyRetentionExec
    rw [hd]
    exact attemptRemovals_head_fail rest hn

/-- Witness for C6's amended theorem: with no removal failures, all three
deletions of the concrete run are attempted and nothing is raised. -/
theorem retention_deletions_until_first_failure_witness :
    applyRetentionExec nowJan2024 filesOld3 (fun _ => false)
      = ((applyRetentionPolicy nowJan2024 filesOld3).2, false) :=
  (retention_deletions_until_first_failure nowJan2024 filesOld3 (fun _ => false)).1
    (fun _ _ => rfl)

/-! ## C4: the restore does not clear the destination -/

theorem extractAll_apply (ms : List (String × String)) (m : DirState) (k : String) :
    extractAll ms m k = (archLookup ms k).or (m k) := by
  induction ms generalizing m with
  | nil => simp [extractAll, archLookup]
  | cons kv rest ih =>
    have hstep : extractAll (kv :: rest) m = extractAll rest (setEntry kv.1 kv.2 m) := rfl
    have harch : archLookup (kv :: rest) k
        = (archLookup rest k).or (if kv.1 = k then some kv.2 else none) := by
      unfold archLookup
      rw [List.reverse_cons, List.find?_append]
      by_cases hk : kv.1 = k
      · simp only [List.find?, hk, beq_self_eq_true, if_pos rfl]
        cases rest.reverse.find? fun p => p.1 == k <;> simp
      · simp [List.find?, show (kv.1 == k) = false by simpa using hk, hk]
    rw [hstep, ih, harch]
    simp only [setEntry]
    by_cases hk : k = kv.1
    · simp only [if_pos hk, if_pos hk.symm]
      cases archLookup rest k <;> simp
    · simp only [if_neg hk, if_neg (Ne.symm hk)]
      cases archLookup rest k <;> simp

/-- C4 counterexample: on a concrete successful restore, a pre-existing entry
of the data directory that is not a member of the archive is still present
afterwards — no entry under the destination is removed before unpacking, so
the destination does not contain exactly the archive's contents. -/
theorem restore_leaves_remnant :
    (processRestoreFile restoreEnvOverlay
        ["/tmp/backup_work/vw_backup_20240101_120000.tar.gz"]
        (fun q => if q = "old-attachment" then some "stale" else none)).data
        "old-attachment" = some "stale"
    ∧ archLookup restoreEnvOverlay.archive "old-attachment" = none := by decide

/-- C4 amended: the destination is not cleared; `extractall` overlays the
archive onto the existing data directory — after any restore that reaches the
unpack step, an entry holds the archive's version of that path when the
archive has one, and the pre-existing entry otherwise. -/
theorem restore_unpack_overlays (env : RestoreEnv) (scratch0 : List String)
    (data0 : DirState) (k : String)
    (hdec : restoreDecryptFails env = false) (htar : env.isTar = true)
    (hext : env.extractOk = true) :
    (processRestoreFile env scratch0 data0).data k
      = (archLookup env.archive k).or (data0 k) := by
  have hdat : (processRestoreFile env scratch0 data0).data = extractAll env.archive data0 := by
    unfold restoreDecryptFails at hdec
    cases h1 : strEndsWith env.fileName ".enc" <;>
      cases h2 : truthy env.cfgPassword <;>
        cases h3 : env.decryptOk <;>
          cases h6 : env.restartOk <;>
            simp_all [processRestoreFile, processRestoreRaw]
  rw [hdat, extractAll_apply]

/-- Witness for C4's amended theorem: on the concrete successful restore, the
archive's `db.sqlite3` replaces the old one. -/
theorem restore_unpack_overlays_witness :
    (processRestoreFile restoreEnvOverlay []
        (fun q => if q = "db.sqlite3" then some "old-db" else none)).data "db.sqlite3"
      = (archLookup restoreEnvOverlay.archive "db.sqlite3").or
          (some "old-db") :=
  restore_unpack_overlays restoreEnvOverlay []
    (fun q => if q = "db.sqlite3" then some "old-db" else none) "db.sqlite3"
    (by decide) (by decide) (by decide)

/-! ## Stable-sort lemmas -/

theorem mem_insertStable {le : α → α → Bool} {x z : α} {l : List α} :
    z ∈ insertStable le x l ↔ z = x ∨ z ∈ l := by
  induction l with
  | nil => simp [insertStable]
  | cons y r ih =>
    by_cases h : le y x
    · simp only [insertStable, if_pos h, List.mem_cons, ih]
      tauto
    · simp only [insertStable, if_neg h, List.mem_cons]

theorem insertStable_perm (le : α → α → Bool) (x : α) (l : List α) :
    (insertStable le x l).Perm (x :: l) := by
  induction l with
  | nil => exact List.Perm.refl _
  | cons y r ih =>
    by_cases h : le y x
    · simp only [insertStable, if_pos h]
      exact (ih.cons y).trans (List.Perm.swap x y r)
    · simp [insertStable, h]

theorem stableSortBy_perm_aux (le : α → α → Bool) (l acc : List α) :
    (l.foldl (fun a x => insertStable le x a) acc).Perm (acc ++ l) := by
  induction l generalizing acc with
  | nil => simp
  | cons x r ih =>
    have h1 := ih (insertStable le x acc)
    have h2 : (insertStable le x acc ++ r).Perm (acc ++ x :: r) :=
      ((insertStable_perm le x acc).append_right r).trans List.perm_middle.symm
    exact h1.trans h2

theorem stableSortBy_perm (le : α → α → Bool) (l : List α) :
    (stableSortBy le l).Perm l := by
  simpa using stableSortBy_perm_aux le l []

theorem pairwise_insertStable {le : α → α → Bool}
    (htot : ∀ a b, le a b = true ∨ le b a = true)
    (htrans : ∀ a b c, le a b = true → le b c = true → le a c = true)
    {x : α} {l : List α} (h : l.Pairwise fun a b => le a b = true) :
    (insertStable le x l).Pairwise fun a b => le a b = true := by
  induction l with
  | nil => simp [insertStable]
  | cons y r ih =>
    rcases List.pairwise_cons.mp h with ⟨hy, hr⟩
    by_cases hle : le y x
    · simp only [insertStable, if_pos hle]
      refine List.pairwise_cons.mpr ⟨?_, ih hr⟩
      intro z hz
      rcases mem_insertStable.mp hz with rfl | hzr
      · exact hle
      · exact hy z hzr
    · simp only [insertStable, if_neg hle]
      have hxy : le x y = true := (htot x y).resolve_right (by simpa using hle)
      refine List.pairwise_cons.mpr ⟨?_, h⟩
      intro z hz
      rcases List.mem_cons.mp hz with rfl | hzr
      · exact hxy
      · exact htrans x y z hxy (hy z hzr)

theorem pairwise_stableSortBy {le : α → α → Bool}
    (htot : ∀ a b, le a b = true ∨ le b a = true)
    (htrans : ∀ a b c, le a b = true → le b c = true → le a c = true)
    (l : List α) :
    (stableSortBy le l).Pairwise fun a b => le a b = true := by
  have key : ∀ (l acc : List α), acc.Pairwise (fun a b => le a b = true) →
      (l.foldl (fun a x => insertStable le x a) acc).Pairwise
        (fun a b => le a b = true) := by
    intro l
    induction l with
    | nil => intro acc h; simpa using h
    | cons x r ih =>
      intro acc h
      exact ih _ (pairwise_insertStable htot htrans h)
  exact key l [] (by simp)

/-! ## Order facts for the Python string comparison -/

theorem strLtList_asymm : ∀ {l₁ l₂ : List Char},
    strLtList l₁ l₂ = true → strLtList l₂ l₁ = false
  | [], [] => by simp [strLtList]
  | [], _ :: _ => by simp [strLtList]
  | _ :: _, [] => by simp [strLtList]
  | a :: r, b :: s => by
    intro h
    rcases lt_trichotomy a b with hab | hab | hab
    · simp [strLtList, hab, asymm hab, not_lt_of_lt hab]
    · subst hab
      simp only [strLtList, lt_irrefl, if_false] at h ⊢
      exact strLtList_asymm h
    · simp [strLtList, hab, asymm hab, not_lt_of_lt hab] at h

theorem strLtList_trans : ∀ {l₁ l₂ l₃ : List Char},
    strLtList l₁ l₂ = true → strLtList l₂ l₃ = true → strLtList l₁ l₃ = true
  | l₁, l₂, l₃ => by
    intro h12 h23
    induction l₁ generalizing l₂ l₃ with
    | nil =>
      cases l₂ with
      | nil => simp [strLtList] at h12
      | cons b s =>
        cases l₃ with
        | nil => simp [strLtList] at h23
        | cons c t => simp [strLtList]
    | cons a r ih =>
      cases l₂ with
      | nil => simp [strLtList] at h12
      | cons b s =>
        cases l₃ with
        | nil => simp [strLtList] at h23
        | cons c t =>
          rcases lt_trichotomy a b with hab | hab | hab
          · rcases lt_trichotomy b c with hbc | hbc | hbc
            · simp [strLtList, lt_trans hab hbc]
            · subst hbc
              simp [strLtList, hab]
            · simp [strLtList, asymm hbc, hbc] at h23
          · subst hab
            rcases lt_trichotomy a c with hac | hac | hac
            · simp [strLtList, hac]
            · subst hac
              simp only [strLtList, lt_irrefl, if_false] at h12 h23 ⊢
              exact ih _ _ h12 h23
            · simp [strLtList, asymm hac, hac] at h23
          · simp [strLtList, asymm hab, hab] at h12

theorem strLtList_connex : ∀ {l₁ l₂ : List Char}, l₁ ≠ l₂ →
    strLtList l₁ l₂ = true ∨ strLtList l₂ l₁ = true
  | [], [] => by simp
  | [], _ :: _ => by simp [strLtList]
  | _ :: _, [] => by simp [strLtList]
  | a :: r, b :: s => by
    intro h
    rcases lt_trichotomy a b with hab | hab | hab
    · exact Or.inl (by simp [strLtList, hab])
    · subst hab
      have hrs : r ≠ s := fun hh => h (by rw [hh])
      rcases strLtList_connex hrs with hh | hh
      · exact Or.inl (by simp [strLtList, hh])
      · exact Or.inr (by simp [strLtList, hh])
    · exact Or.inr (by simp [strLtList, hab])

theorem nameDesc_total (a b : String) : nameDesc a b = true ∨ nameDesc b a = true := by
  unfold nameDesc strLt
  by_cases h : strLtList a.data b.data = true
  · exact Or.inr (by simp [strLtList_asymm h])
  · exact Or.inl (by simp [Bool.eq_false_iff.mpr h])

theorem nameDesc_trans (a b c : String) (hab : nameDesc a b = true)
    (hbc : nameDesc b c = true) : nameDesc a c = true := by
  unfold nameDesc strLt at hab hbc ⊢
  simp only [Bool.not_eq_true'] at hab hbc ⊢
  by_cases hac : strLtList a.data c.data = true
  · exfalso
    by_cases hcb : c.data = b.data
    · rw [hcb] at hac
      rw [hac] at hab
      cases hab
    · rcases strLtList_connex hcb with h | h
      · exact absurd (strLtList_trans hac h) (by simp [hab])
      · exact absurd h (by simp [hbc])
  · exact Bool.eq_false_iff.mpr hac

/-! ## C5: the flat-count policy (spec-modelled) -/

/-- C5: with `max_backups` configured and `N + k` distinct backups listed, the
flat-count policy keeps exactly the `N` newest names and deletes exactly the
`k` oldest: the kept and deleted parts have the claimed sizes, every deleted
name is older (smaller in name order) than every kept name, together they are
exactly the listing, and on the concrete scenario (`max_backups = 3`, days
1..5) days 3, 4, 5 remain while days 1, 2 are deleted. -/
theorem flat_count_keeps_newest (mb : Option Int) (names : List String) (k : Nat)
    (hnd : names.Nodup) (hlen : names.length = flatEffMax mb + k) :
    (flatCountRetention mb names).1.length = flatEffMax mb
    ∧ (flatCountRetention mb names).2.length = k
    ∧ (∀ a ∈ (flatCountRetention mb names).1,
        ∀ d ∈ (flatCountRetention mb names).2, strLt d a = true)
    ∧ ((flatCountRetention mb names).1 ++ (flatCountRetention mb names).2).Perm names
    ∧ flatCountRetention (some 3) namesDays5
        = (["vw_backup_20240105_120000.tar.gz", "vw_backup_20240104_120000.tar.gz",
            "vw_backup_20240103_120000.tar.gz"],
           ["vw_backup_20240102_120000.tar.gz", "vw_backup_20240101_120000.tar.gz"]) := by
  set sorted := stableSortBy nameDesc names with hsorted
  have hperm : sorted.Perm names := stableSortBy_perm nameDesc names
  have hpw : sorted.Pairwise fun a b => nameDesc a b = true :=
    pairwise_stableSortBy nameDesc_total
      (fun a b c hab hbc => nameDesc_trans a b c hab hbc) names
  have hlens : sorted.length = names.length := hperm.length_eq
  set n := flatEffMax mb with hn
  have hkeep : (flatCountRetention mb names).1 = sorted.take n := rfl
  have hdel : (flatCountRetention mb names).2 = sorted.drop n := rfl
  have hnle : n ≤ sorted.length := by omega
  refine ⟨?_, ?_, ?_, ?_, by decide⟩
  · rw [hkeep, List.length_take]
    omega
  · rw [hdel, List.length_drop]
    omega
  · intro a ha d hd
    rw [hkeep] at ha
    rw [hdel] at hd
    have hsplit : sorted = sorted.take n ++ sorted.drop n :=
      (List.take_append_drop n sorted).symm
    have hpw2 := hsplit ▸ hpw
    have hled : nameDesc a d = true := (List.pairwise_append.mp hpw2).2.2 a ha d hd
    have hnd2 : (sorted.take n ++ sorted.drop n).Nodup := by
      rw [← hsplit]
      exact (hperm.nodup_iff).mpr hnd
    have hdisj := (List.nodup_append.mp hnd2).2.2
    have hne : d.data ≠ a.data := by
      intro hdata
      have hda : d = a := by
        cases d
        cases a
        exact congrArg String.mk hdata
      exact hdisj ha (hda ▸ hd)
    unfold nameDesc strLt at hled
    simp only [Bool.not_eq_true'] at hled
    rcases strLtList_connex hne with h | h
    · exact h
    · rw [h] at hled
      cases hled
  · rw [hkeep, hdel, List.take_append_drop]
    exact hperm

/-- Witness for C5: the concrete scenario with `max_backups = 3` and five
distinct daily backups. -/
theorem flat_count_keeps_newest_witness :
    (flatCountRetention (some 3) namesDays5).1.length = flatEffMax (some 3)
    ∧ (flatCountRetention (some 3) namesDays5).2.length = 2 :=
  ⟨(flat_count_keeps_newest (some 3) namesDays5 2 (by decide) (by decide)).1,
   (flat_count_keeps_newest (some 3) namesDays5 2 (by decide) (by decide)).2.1⟩

/-! ## GFS keep-set lemmas -/

theorem dtDesc_total (a b : Backup) : dtDesc a b = true ∨ dtDesc b a = true := by
  unfold dtDesc
  rcases le_total b.dt a.dt with h | h
  · exact Or.inl (decide_eq_true h)
  · exact Or.inr (decide_eq_true h)

theorem dtDesc_trans (a b c : Backup) (hab : dtDesc a b = true)
    (hbc : dtDesc b c = true) : dtDesc a c = true := by
  unfold dtDesc at *
  exact decide_eq_true ((of_decide_eq_true hbc).trans (of_decide_eq_true hab))

theorem sortBackupsDesc_perm (l : List Backup) : (sortBackupsDesc l).Perm l :=
  stableSortBy_perm dtDesc l

theorem sortBackupsDesc_pairwise (l : List Backup) :
    (sortBackupsDesc l).Pairwise fun a b => b.dt ≤ a.dt := by
  have h := pairwise_stableSortBy dtDesc_total dtDesc_trans l
  exact h.imp fun hab => of_decide_eq_true hab

theorem head_filter_max {l : List Backup} (hs : l.Pairwise fun a b => b.dt ≤ a.dt)
    {p : Backup → Bool} {c : Backup} (h : (l.filter p).head? = some c) :
    c ∈ l ∧ p c = true ∧ ∀ x ∈ l, p x = true → x.dt ≤ c.dt := by
  obtain ⟨t, ht⟩ : ∃ t, l.filter p = c :: t := by
    cases hf : l.filter p with
    | nil => rw [hf] at h; simp at h
    | cons y t =>
      rw [hf] at h
      simp only [List.head?_cons, Option.some.injEq] at h
      exact ⟨t, by rw [h]⟩
  have hpwf : (l.filter p).Pairwise fun a b => b.dt ≤ a.dt :=
    List.Pairwise.sublist (List.filter_sublist l) hs
  have hcmem : c ∈ l.filter p := by rw [ht]; exact List.mem_cons_self c t
  have hcl := List.mem_filter.mp hcmem
  refine ⟨hcl.1, hcl.2, ?_⟩
  intro x hx hpx
  have hxf : x ∈ l.filter p := List.mem_filter.mpr ⟨hx, hpx⟩
  rw [ht] at hxf hpwf
  rcases List.mem_cons.mp hxf with rfl | hxt
  · exact le_refl _
  · exact (List.pairwise_cons.mp hpwf).1 x hxt

theorem head_filter_of_max {l : List Backup} (hs : l.Pairwise fun a b => b.dt ≤ a.dt)
    (hinj : ∀ x ∈ l, ∀ y ∈ l, x.dt = y.dt → x = y)
    {p : Backup → Bool} {b : Backup} (hb : b ∈ l) (hpb : p b = true)
    (hmax : ∀ x ∈ l, p x = true → x.dt ≤ b.dt) :
    (l.filter p).head? = some b := by
  cases hh : (l.filter p).head? with
  | none =>
    rw [List.head?_eq_none_iff] at hh
    have hbf : b ∈ l.filter p := List.mem_filter.mpr ⟨hb, hpb⟩
    rw [hh] at hbf
    cases hbf
  | some c =>
    obtain ⟨hcl, hpc, hcmax⟩ := head_filter_max hs hh
    have h1 : c.dt ≤ b.dt := hmax c hcl hpc
    have h2 : b.dt ≤ c.dt := hcmax b hb hpb
    rw [hinj c hcl b hb (le_antisymm h2 h1).symm]

theorem ageDays_lt_iff (now dt c : Int) : ageDays now dt < c ↔ now - dt < c * 86400 := by
  unfold ageDays
  rw [Int.fdiv_eq_ediv _ (by norm_num)]
  omega

theorem collectBackups_dt {files : List RemoteFile} {b : Backup}
    (h : b ∈ collectBackups files) :
    ∃ d, parseBackupDate b.name = some d ∧ b.dt = toEpochSec d := by
  rw [collectBackups, List.mem_filterMap] at h
  obtain ⟨f, hf, hsome⟩ := h
  by_cases hdir : f.isDirectory = true
  · rw [if_pos hdir] at hsome
    simp at hsome
  · rw [if_neg hdir] at hsome
    by_cases hsub : containsSub "vw_backup_".data f.name.data = true
    · rw [if_pos hsub, Option.map_eq_some'] at hsome
      obtain ⟨d, hd, hfb⟩ := hsome
      refine ⟨d, ?_, ?_⟩
      · rw [← hfb]
        exact hd
      · rw [← hfb]
    · rw [if_neg hsub] at hsome
      simp at hsome

theorem collectBackups_name_dt {files : List RemoteFile} {x y : Backup}
    (hx : x ∈ collectBackups files) (hy : y ∈ collectBackups files)
    (hn : x.name = y.name) : x.dt = y.dt := by
  obtain ⟨d1, hp1, he1⟩ := collectBackups_dt hx
  obtain ⟨d2, hp2, he2⟩ := collectBackups_dt hy
  rw [hn] at hp1
  rw [hp1] at hp2
  cases hp2
  rw [he1, he2]

/-! ## C3: the GFS keep-set -/

/-- C3: given a listing whose parsed backups have pairwise distinct names and
pairwise distinct timestamps, a parsed backup is kept by
`apply_retention_policy` exactly when the spec's GFS clause puts it in the
keep-set — younger than 7 days, or the most-recent of one of the 4 weekly
windows, or of one of the 12 monthly windows — and deleted exactly when it is
outside that keep-set. -/
theorem gfs_keep_set (now : Int) (files : List RemoteFile)
    (hname : ∀ x ∈ collectBackups files, ∀ y ∈ collectBackups files,
      x.name = y.name → x = y)
    (hdtinj : ∀ x ∈ collectBackups files, ∀ y ∈ collectBackups files,
      x.dt = y.dt → x = y)
    (b : Backup) (hb : b ∈ collectBackups files) :
    (b.name ∈ (applyRetentionPolicy now files).1 ↔
      gfsSpecKeep now (collectBackups files) b)
    ∧ (b.name ∈ (applyRetentionPolicy now files).2 ↔
      ¬ gfsSpecKeep now (collectBackups files) b) := by
  set bs := collectBackups files with hbs
  set sorted := sortBackupsDesc bs with hs
  have hperm : sorted.Perm bs := sortBackupsDesc_perm bs
  have hpw : sorted.Pairwise fun a b => b.dt ≤ a.dt := sortBackupsDesc_pairwise bs
  have hbsort : b ∈ sorted := hperm.mem_iff.mpr hb
  have hinj : ∀ x ∈ sorted, ∀ y ∈ sorted, x.dt = y.dt → x = y :=
    fun x hx y hy => hdtinj x (hperm.mem_iff.mp hx) y (hperm.mem_iff.mp hy)
  have hnameinj : ∀ x ∈ sorted, x.name = b.name → x = b :=
    fun x hx hxn => hname x (hperm.mem_iff.mp hx) b hb hxn
  have hnonempty : sorted.isEmpty = false := by
    cases hl : sorted with
    | nil => rw [hl] at hbsort; cases hbsort
    | cons hd tl => rfl
  have hpol : applyRetentionPolicy now files
      = (toKeepL now sorted, toDeleteL now sorted) := by
    unfold applyRetentionPolicy retentionCore
    rw [← hbs, ← hs]
    simp [hnonempty]
  have hkeep : b.name ∈ toKeepL now sorted ↔ gfsSpecKeep now bs b := by
    unfold toKeepL
    simp only [List.mem_append]
    constructor
    · rintro ((hson | hweek) | hmonth)
      · unfold sonKeepL at hson
        rw [List.mem_map] at hson
        obtain ⟨x, hxf, hxn⟩ := hson
        have hxl := List.mem_filter.mp hxf
        have hxb : x = b := hnameinj x hxl.1 hxn
        subst hxb
        exact Or.inl ((ageDays_lt_iff now x.dt 7).mp (of_decide_eq_true hxl.2))
      · unfold weekKeepL at hweek
        rw [List.mem_filterMap] at hweek
        obtain ⟨i, hi, hsome⟩ := hweek
        rw [Option.map_eq_some'] at hsome
        obtain ⟨c, hhead, hcn⟩ := hsome
        obtain ⟨hcl, hpc, hcmax⟩ := head_filter_max hpw hhead
        have hcb : c = b := hnameinj c hcl hcn
        subst hcb
        exact Or.inr (Or.inl ⟨i, List.mem_range.mp hi, hpc,
          fun x hx hxw => hcmax x (hperm.mem_iff.mpr hx) hxw⟩)
      · unfold monthKeepL at hmonth
        rw [List.mem_filterMap] at hmonth
        obtain ⟨i, hi, hsome⟩ := hmonth
        rw [Option.map_eq_some'] at hsome
        obtain ⟨c, hhead, hcn⟩ := hsome
        obtain ⟨hcl, hpc, hcmax⟩ := head_filter_max hpw hhead
        have hcb : c = b := hnameinj c hcl hcn
        subst hcb
        exact Or.inr (Or.inr ⟨i, List.mem_range.mp hi, hpc,
          fun x hx hxw => hcmax x (hperm.mem_iff.mpr hx) hxw⟩)
    · rintro (hson | ⟨i, hi4, hwin, hmax⟩ | ⟨i, hi12, hwin, hmax⟩)
      · refine Or.inl (Or.inl ?_)
        unfold sonKeepL
        rw [List.mem_map]
        exact ⟨b, List.mem_filter.mpr
          ⟨hbsort, decide_eq_true ((ageDays_lt_iff now b.dt 7).mpr hson)⟩, rfl⟩
      · refine Or.inl (Or.inr ?_)
        unfold weekKeepL
        rw [List.mem_filterMap]
        refine ⟨i, List.mem_range.mpr hi4, ?_⟩
        rw [head_filter_of_max hpw hinj hbsort hwin
          fun x hx hxw => hmax x (hperm.mem_iff.mp hx) hxw]
        rfl
      · refine Or.inr ?_
        unfold monthKeepL
        rw [List.mem_filterMap]
        refine ⟨i, List.mem_range.mpr hi12, ?_⟩
        rw [head_filter_of_max hpw hinj hbsort hwin
          fun x hx hxw => hmax x (hperm.mem_iff.mp hx) hxw]
        rfl
  have hdel : b.name ∈ toDeleteL now sorted ↔ b.name ∉ toKeepL now sorted := by
    unfold toDeleteL
    rw [List.mem_map]
    constructor
    · rintro ⟨x, hxf, hxn⟩
      have hxl := List.mem_filter.mp hxf
      have hxb : x = b := hnameinj x hxl.1 hxn
      subst hxb
      have hcf := hxl.2
      rw [Bool.not_eq_true'] at hcf
      intro hmemk
      have hct : (toKeepL now sorted).contains x.name = true := List.elem_iff.mpr hmemk
      rw [hct] at hcf
      cases hcf
    · intro hnk
      refine ⟨b, List.mem_filter.mpr ⟨hbsort, ?_⟩, rfl⟩
      rw [Bool.not_eq_true']
      exact Bool.eq_false_iff.mpr fun hc => hnk (List.elem_iff.mp hc)
  rw [hpol]
  exact ⟨hkeep, hdel.trans (not_congr hkeep)⟩

/-- Witness for C3: on the concrete mixed listing, the one-day-old backup is
kept (it lies in the son tier). -/
theorem gfs_keep_set_witness :
    "vw_backup_20240109_120000.tar.gz"
      ∈ (applyRetentionPolicy nowJan2024 filesMixed).1 := by
  have h := gfs_keep_set nowJan2024 filesMixed (by decide) (by decide)
    ⟨"vw_backup_20240109_120000.tar.gz", toEpochSec ⟨2024, 1, 9, 12, 0, 0⟩⟩ (by decide)
  exact h.1.mpr (Or.inl (by decide))

/-! ## C10: backups older than all twelve 30-day windows are deleted -/

/-- C10: a parsed backup older than 360 days at prune time lies in no keep
window and is deleted; in particular, when every parsed backup is that old
the keep-set is empty and all of them are deleted, the most recent included. -/
theorem gfs_old_backups_deleted (now : Int) (files : List RemoteFile) :
    (∀ b ∈ collectBackups files, b.dt < now - 360 * 86400 →
      b.name ∉ (applyRetentionPolicy now files).1
      ∧ b.name ∈ (applyRetentionPolicy now files).2)
    ∧ ((∀ b ∈ collectBackups files, b.dt < now - 360 * 86400) →
      (applyRetentionPolicy now files).1 = []
      ∧ ∀ b ∈ collectBackups files, b.name ∈ (applyRetentionPolicy now files).2) := by
  set bs := collectBackups files with hbs
  set sorted := sortBackupsDesc bs with hs
  have hperm : sorted.Perm bs := sortBackupsDesc_perm bs
  have hpw : sorted.Pairwise fun a b => b.dt ≤ a.dt := sortBackupsDesc_pairwise bs
  have hnamedt : ∀ x ∈ sorted, ∀ y ∈ bs, x.name = y.name → x.dt = y.dt :=
    fun x hx y hy hn => collectBackups_name_dt (hperm.mem_iff.mp hx) hy hn
  have part1 : ∀ b ∈ bs, b.dt < now - 360 * 86400 →
      b.name ∉ (applyRetentionPolicy now files).1
      ∧ b.name ∈ (applyRetentionPolicy now files).2 := by
    intro b hb hold
    have hbsort : b ∈ sorted := hperm.mem_iff.mpr hb
    have hnonempty : sorted.isEmpty = false := by
      cases hl : sorted with
      | nil => rw [hl] at hbsort; cases hbsort
      | cons hd tl => rfl
    have hpol : applyRetentionPolicy now files
        = (toKeepL now sorted, toDeleteL now sorted) := by
      unfold applyRetentionPolicy retentionCore
      rw [← hbs, ← hs]
      simp [hnonempty]
    have hnk : b.name ∉ toKeepL now sorted := by
      intro hk
      unfold toKeepL at hk
      simp only [List.mem_append] at hk
      rcases hk with (hson | hweek) | hmonth
      · unfold sonKeepL at hson
        rw [List.mem_map] at hson
        obtain ⟨x, hxf, hxn⟩ := hson
        have hxl := List.mem_filter.mp hxf
        have hdteq : x.dt = b.dt := hnamedt x hxl.1 b hb hxn
        have hage := (ageDays_lt_iff now x.dt 7).mp (of_decide_eq_true hxl.2)
        omega
      · unfold weekKeepL at hweek
        rw [List.mem_filterMap] at hweek
        obtain ⟨i, hi, hsome⟩ := hweek
        rw [Option.map_eq_some'] at hsome
        obtain ⟨c, hhead, hcn⟩ := hsome
        have hi4 : i < 4 := List.mem_range.mp hi
        obtain ⟨hcl, hpc, -⟩ := head_filter_max hpw hhead
        have hdteq : c.dt = b.dt := hnamedt c hcl b hb hcn
        unfold inWindow weekWindowStart weekWindowEnd at hpc
        simp only [Bool.and_eq_true, decide_eq_true_eq] at hpc
        have hile : (i : Int) ≤ 3 := by exact_mod_cast Nat.lt_succ_iff.mp hi4
        have hst := hpc.1
        omega
      · unfold monthKeepL at hmonth
        rw [List.mem_filterMap] at hmonth
        obtain ⟨i, hi, hsome⟩ := hmonth
        rw [Option.map_eq_some'] at hsome
        obtain ⟨c, hhead, hcn⟩ := hsome
        have hi12 : i < 12 := List.mem_range.mp hi
        obtain ⟨hcl, hpc, -⟩ := head_filter_max hpw hhead
        have hdteq : c.dt = b.dt := hnamedt c hcl b hb hcn
        unfold inWindow monthWindowStart monthWindowEnd at hpc
        simp only [Bool.and_eq_true, decide_eq_true_eq] at hpc
        have hile : (i : Int) ≤ 11 := by exact_mod_cast Nat.lt_succ_iff.mp hi12
        have hst := hpc.1
        omega
    refine ⟨by rw [hpol]; exact hnk, ?_⟩
    rw [hpol]
    show b.name ∈ toDeleteL now sorted
    unfold toDeleteL
    rw [List.mem_map]
    refine ⟨b, List.mem_filter.mpr ⟨hbsort, ?_⟩, rfl⟩
    rw [Bool.not_eq_true']
    exact Bool.eq_false_iff.mpr fun hc => hnk (List.elem_iff.mp hc)
  refine ⟨part1, fun hall => ⟨?_, fun b hb => (part1 b hb (hall b hb)).2⟩⟩
  cases hl : sorted with
  | nil =>
    unfold applyRetentionPolicy retentionCore
    rw [← hbs, ← hs, hl]
    rfl
  | cons hd tl =>
    have hnonempty : sorted.isEmpty = false := by rw [hl]; rfl
    have hpol : applyRetentionPolicy now files
        = (toKeepL now sorted, toDeleteL now sorted) := by
      unfold applyRetentionPolicy retentionCore
      rw [← hbs, ← hs]
      simp [hnonempty]
    rw [hpol]
    show toKeepL now sorted = []
    have hallsorted : ∀ x ∈ sorted, x.dt < now - 360 * 86400 :=
      fun x hx => hall x (hperm.mem_iff.mp hx)
    unfold toKeepL sonKeepL weekKeepL monthKeepL
    have hson : sorted.filter (fun b => decide (ageDays now b.dt < 7)) = [] := by
      rw [List.filter_eq_nil_iff]
      intro x hx
      simp only [decide_eq_true_eq]
      intro hage
      rw [ageDays_lt_iff] at hage
      have := hallsorted x hx
      omega
    have hweek : ∀ i ∈ List.range 4,
        ((sorted.filter fun b =>
          inWindow (weekWindowStart now i) (weekWindowEnd now i) b.dt).head?).map
            (·.name) = none := by
      intro i hi
      have hi4 : (i : Int) ≤ 3 := by
        exact_mod_cast Nat.lt_succ_iff.mp (List.mem_range.mp hi)
      have hf : sorted.filter (fun b =>
          inWindow (weekWindowStart now i) (weekWindowEnd now i) b.dt) = [] := by
        rw [List.filter_eq_nil_iff]
        intro x hx
        have hold := hallsorted x hx
        intro hw
        unfold inWindow weekWindowStart weekWindowEnd at hw
        simp only [Bool.and_eq_true, decide_eq_true_eq] at hw
        have hst := hw.1
        omega
      rw [hf]
      rfl
    have hmonth : ∀ i ∈ List.range 12,
        ((sorted.filter fun b =>
          inWindow (monthWindowStart now i) (monthWindowEnd now i) b.dt).head?).map
            (·.name) = none := by
      intro i hi
      have hi12 : (i : Int) ≤ 11 := by
        exact_mod_cast Nat.lt_succ_iff.mp (List.mem_range.mp hi)
      have hf : sorted.filter (fun b =>
          inWindow (monthWindowStart now i) (monthWindowEnd now i) b.dt) = [] := by
        rw [List.filter_eq_nil_iff]
        intro x hx
        have hold := hallsorted x hx
        intro hw
        unfold inWindow monthWindowStart monthWindowEnd at hw
        simp only [Bool.and_eq_true, decide_eq_true_eq] at hw
        have hst := hw.1
        omega
      rw [hf]
      rfl
    rw [hson, List.filterMap_eq_nil_iff.mpr hweek, List.filterMap_eq_nil_iff.mpr hmonth]
    rfl

/-- Witness for C10: on the concrete listing whose backups are all from 2020,
pruning in 2024 keeps nothing and deletes the most recent backup too. -/
theorem gfs_old_backups_deleted_witness :
    (applyRetentionPolicy nowJan2024 filesOld3).1 = []
    ∧ "vw_backup_20200103_120000.tar.gz"
        ∈ (applyRetentionPolicy nowJan2024 filesOld3).2 := by
  have h := (gfs_old_backups_deleted nowJan2024 filesOld3).2 (by decide)
  exact ⟨h.1, h.2 ⟨"vw_backup_20200103_120000.tar.gz",
    toEpochSec ⟨2020, 1, 3, 12, 0, 0⟩⟩ (by decide)⟩

/-! ## C9: digit and formatting lemmas -/

theorem isDig_digitChar {d : Nat} (h : d ≤ 9) : isDig (digitChar d) = true := by
  interval_cases d <;> decide

theorem chDig_digitChar {d : Nat} (h : d ≤ 9) : chDig (digitChar d) = d := by
  interval_cases d <;> decide

theorem natDigits_four {y : Nat} (h1 : 1000 ≤ y) (h2 : y ≤ 9999) :
    natDigits y = [y / 1000, y / 100 % 10, y / 10 % 10, y % 10] := by
  have e1 : natDigits y = natDigits (y / 10) ++ [y % 10] := by
    rw [natDigits]
    rw [dif_neg (by omega)]
  have e2 : natDigits (y / 10) = natDigits (y / 100) ++ [y / 10 % 10] := by
    rw [natDigits]
    rw [dif_neg (by omega), Nat.div_div_eq_div_mul]
  have e3 : natDigits (y / 100) = natDigits (y / 1000) ++ [y / 100 % 10] := by
    rw [natDigits]
    rw [dif_neg (by omega), Nat.div_div_eq_div_mul]
  have e4 : natDigits (y / 1000) = [y / 1000] := by
    rw [natDigits]
    rw [dif_pos (by omega)]
  rw [e1, e2, e3, e4]
  rfl

theorem pad2_eq {n : Nat} (h : n ≤ 99) :
    pad2 n = [digitChar (n / 10), digitChar (n % 10)] := by
  by_cases hn : n < 10
  · unfold pad2
    rw [if_pos hn]
    have h10 : n / 10 = 0 := by omega
    have hmod : n % 10 = n := by omega
    rw [h10, hmod]
    rfl
  · unfold pad2
    rw [if_neg hn]

theorem yearChars_digits {y : Nat} (h1 : 1000 ≤ y) (h2 : y ≤ 9999) :
    ∀ c ∈ yearChars y, isDig c = true := by
  unfold yearChars
  rw [natDigits_four h1 h2]
  intro c hc
  simp only [List.map_cons, List.map_nil, List.mem_cons, List.not_mem_nil, or_false] at hc
  rcases hc with rfl | rfl | rfl | rfl
  · exact isDig_digitChar (by omega)
  · exact isDig_digitChar (by omega)
  · exact isDig_digitChar (by omega)
  · exact isDig_digitChar (by omega)

theorem pad2_digits {n : Nat} (h : n ≤ 99) : ∀ c ∈ pad2 n, isDig c = true := by
  rw [pad2_eq h]
  intro c hc
  simp only [List.mem_cons, List.not_mem_nil, or_false] at hc
  rcases hc with rfl | rfl
  · exact isDig_digitChar (by omega)
  · exact isDig_digitChar (by omega)

/-! ## C9: the field matchers on well-formed input -/

theorem matchY_fmt {y : Nat} (h1 : 1000 ≤ y) (h2 : y ≤ 9999) (rest : List Char) :
    matchY (yearChars y ++ rest) = [(y, rest)] := by
  unfold yearChars
  rw [natDigits_four h1 h2]
  simp only [List.map_cons, List.map_nil, List.cons_append, List.nil_append]
  rw [show matchY (digitChar (y / 1000) :: digitChar (y / 100 % 10) ::
        digitChar (y / 10 % 10) :: digitChar (y % 10) :: rest)
      = if (isDig (digitChar (y / 1000)) && isDig (digitChar (y / 100 % 10)) &&
            isDig (digitChar (y / 10 % 10)) && isDig (digitChar (y % 10))) = true then
          [(1000 * chDig (digitChar (y / 1000)) + 100 * chDig (digitChar (y / 100 % 10)) +
            10 * chDig (digitChar (y / 10 % 10)) + chDig (digitChar (y % 10)), rest)]
        else [] from rfl]
  rw [isDig_digitChar (by omega : y / 1000 ≤ 9),
      isDig_digitChar (by omega : y / 100 % 10 ≤ 9),
      isDig_digitChar (by omega : y / 10 % 10 ≤ 9),
      isDig_digitChar (by omega : y % 10 ≤ 9)]
  simp only [Bool.and_self, if_true]
  rw [chDig_digitChar (by omega : y / 1000 ≤ 9),
      chDig_digitChar (by omega : y / 100 % 10 ≤ 9),
      chDig_digitChar (by omega : y / 10 % 10 ≤ 9),
      chDig_digitChar (by omega : y % 10 ≤ 9)]
  have hval : 1000 * (y / 1000) + 100 * (y / 100 % 10) + 10 * (y / 10 % 10) + y % 10 = y := by
    omega
  rw [hval]

theorem matchM_fmt {m : Nat} (h1 : 1 ≤ m) (h2 : m ≤ 12) (rest : List Char) :
    ∃ t, matchM (pad2 m ++ rest) = (m, rest) :: t := by
  interval_cases m <;> exact ⟨_, rfl⟩

theorem matchD_fmt {n : Nat} (h1 : 1 ≤ n) (h2 : n ≤ 31) (rest : List Char) :
    ∃ t, matchD (pad2 n ++ rest) = (n, rest) :: t := by
  interval_cases n <;> exact ⟨_, rfl⟩

theorem matchH_fmt {n : Nat} (h2 : n ≤ 23) (rest : List Char) :
    ∃ t, matchH (pad2 n ++ rest) = (n, rest) :: t := by
  interval_cases n <;> exact ⟨_, rfl⟩

theorem matchMin_fmt {n : Nat} (h2 : n ≤ 59) (rest : List Char) :
    ∃ t, matchMin (pad2 n ++ rest) = (n, rest) :: t := by
  interval_cases n <;> exact ⟨_, rfl⟩

theorem matchS_fmt {n : Nat} (h2 : n ≤ 59) (rest : List Char) :
    ∃ t, matchS (pad2 n ++ rest) = (n, rest) :: t := by
  interval_cases n <;> exact ⟨_, rfl⟩

/-! ## C9: the composite round trip -/

theorem daysInMonth_le_31 (y m : Nat) : daysInMonth y m ≤ 31 := by
  unfold daysInMonth
  split
  · split <;> omega
  · split <;> omega

theorem flatMap_head {β γ : Type} {xs : List β} {x : β} {t : List β}
    {f : β → List γ} {y : γ}
    (hx : xs = x :: t) (hf : ∃ u, f x = y :: u) :
    ∃ v, xs.flatMap f = y :: v := by
  obtain ⟨u, hu⟩ := hf
  refine ⟨u ++ t.flatMap f, ?_⟩
  rw [hx, List.flatMap_cons, hu, List.cons_append]

theorem map_head {β γ : Type} {xs : List β} {x : β} {t : List β} {f : β → γ}
    (hx : xs = x :: t) : ∃ v, xs.map f = f x :: v :=
  ⟨t.map f, by rw [hx, List.map_cons]⟩

theorem dtCandidates_fmt {d : PyDateTime}
    (hy1 : 1000 ≤ d.year) (hy2 : d.year ≤ 9999)
    (hm1 : 1 ≤ d.month) (hm2 : d.month ≤ 12)
    (hd1 : 1 ≤ d.day) (hd2 : d.day ≤ 31)
    (hh : d.hour ≤ 23) (hmi : d.minute ≤ 59) (hs : d.second ≤ 59) :
    ∃ t, dtCandidates (fmtChars d)
      = ((d.year, d.month, d.day, d.hour, d.minute, d.second), ([] : List Char)) :: t := by
  obtain ⟨tS, hS⟩ := matchS_fmt hs []
  rw [List.append_nil] at hS
  unfold dtCandidates fmtChars
  simp only [List.append_assoc]
  apply flatMap_head (matchY_fmt hy1 hy2 _)
  apply flatMap_head ((matchM_fmt hm1 hm2 _).choose_spec)
  apply flatMap_head ((matchD_fmt hd1 hd2 _).choose_spec)
  apply flatMap_head (show matchLit '_'
    ('_' :: (pad2 d.hour ++ (pad2 d.minute ++ pad2 d.second)))
      = (pad2 d.hour ++ (pad2 d.minute ++ pad2 d.second)) :: [] from rfl)
  apply flatMap_head ((matchH_fmt hh _).choose_spec)
  apply flatMap_head ((matchMin_fmt hmi _).choose_spec)
  exact map_head hS

theorem strptime_fmt {d : PyDateTime}
    (hy1 : 1000 ≤ d.year) (hy2 : d.year ≤ 9999)
    (hm1 : 1 ≤ d.month) (hm2 : d.month ≤ 12)
    (hd1 : 1 ≤ d.day) (hd2 : d.day ≤ daysInMonth d.year d.month)
    (hh : d.hour ≤ 23) (hmi : d.minute ≤ 59) (hs : d.second ≤ 59) :
    strptimeYmdHMS (fmtChars d) = some d := by
  obtain ⟨t, ht⟩ := dtCandidates_fmt hy1 hy2 hm1 hm2 hd1
    (le_trans hd2 (daysInMonth_le_31 _ _)) hh hmi hs
  unfold strptimeYmdHMS
  rw [ht]
  simp only [List.head?_cons]
  show (if ([] : List Char) = [] then
    mkPyDateTime d.year d.month d.day d.hour d.minute d.second else none) = some d
  rw [if_pos rfl]
  unfold mkPyDateTime
  rw [if_pos ⟨by omega, hy2, hm1, hm2, hd1, hd2, hh, hmi, hs⟩]

theorem splitChar_not_mem {sep : Char} {l : List Char} (h : sep ∉ l) :
    splitChar sep l = [l] := by
  induction l with
  | nil => rfl
  | cons c r ih =>
    have hc : ¬ c = sep := fun hcs => h (hcs ▸ List.mem_cons_self c r)
    have hr : sep ∉ r := fun hm => h (List.mem_cons_of_mem c hm)
    simp only [splitChar]
    rw [if_neg hc, ih hr]

theorem splitChar_append {sep : Char} {l₁ l₂ : List Char} (h : sep ∉ l₁) :
    splitChar sep (l₁ ++ sep :: l₂) = l₁ :: splitChar sep l₂ := by
  induction l₁ with
  | nil =>
    simp only [List.nil_append, splitChar]
    rw [if_pos trivial]
  | cons c r ih =>
    have hc : ¬ c = sep := fun hcs => h (hcs ▸ List.mem_cons_self c r)
    have hr : sep ∉ r := fun hm => h (List.mem_cons_of_mem c hm)
    simp only [List.cons_append, splitChar, List.append_eq]
    rw [if_neg hc, ih hr]

theorem fmtChars_mem {d : PyDateTime}
    (hy1 : 1000 ≤ d.year) (hy2 : d.year ≤ 9999)
    (hm : d.month ≤ 99) (hd : d.day ≤ 99) (hh : d.hour ≤ 99)
    (hmi : d.minute ≤ 99) (hs : d.second ≤ 99) :
    ∀ c ∈ fmtChars d, isDig c = true ∨ c = '_' := by
  intro c hc
  unfold fmtChars at hc
  simp only [List.mem_append, List.mem_cons] at hc
  rcases hc with ((hy | hmo) | hdd) | hund | ((hho | hmin) | hsec)
  · exact Or.inl (yearChars_digits hy1 hy2 c hy)
  · exact Or.inl (pad2_digits hm c hmo)
  · exact Or.inl (pad2_digits hd c hdd)
  · exact Or.inr hund
  · exact Or.inl (pad2_digits hh c hho)
  · exact Or.inl (pad2_digits hmi c hmin)
  · exact Or.inl (pad2_digits hs c hsec)

theorem fmtChars_no_dot {d : PyDateTime}
    (hy1 : 1000 ≤ d.year) (hy2 : d.year ≤ 9999)
    (hm : d.month ≤ 99) (hd : d.day ≤ 99) (hh : d.hour ≤ 99)
    (hmi : d.minute ≤ 99) (hs : d.second ≤ 99) :
    '.' ∉ fmtChars d := by
  intro hmem
  rcases fmtChars_mem hy1 hy2 hm hd hh hmi hs '.' hmem with h | h
  · exact absurd h (by decide)
  · exact absurd h (by decide)

theorem no_underscore_of_digits {l : List Char} (h : ∀ c ∈ l, isDig c = true) :
    '_' ∉ l := fun hm => absurd (h '_' hm) (by decide)

theorem parse_fmt_name {d : PyDateTime}
    (hy1 : 1000 ≤ d.year) (hy2 : d.year ≤ 9999)
    (hm1 : 1 ≤ d.month) (hm2 : d.month ≤ 12)
    (hd1 : 1 ≤ d.day) (hd2 : d.day ≤ daysInMonth d.year d.month)
    (hh : d.hour ≤ 23) (hmi : d.minute ≤ 59) (hs : d.second ≤ 59)
    (ext : String) (hext : ext.data = [] ∨ ∃ e, ext.data = '.' :: e) :
    parseBackupDate ("vw_backup_" ++ formatYmdHMS d ++ ext) = some d := by
  have hm99 : d.month ≤ 99 := by omega
  have hd99 : d.day ≤ 99 := le_trans hd2 (le_trans (daysInMonth_le_31 _ _) (by omega))
  have hh99 : d.hour ≤ 99 := by omega
  have hmi99 : d.minute ≤ 99 := by omega
  have hs99 : d.second ≤ 99 := by omega
  have hdate_digits : ∀ c ∈ (yearChars d.year ++ pad2 d.month) ++ pad2 d.day,
      isDig c = true := by
    intro c hc
    simp only [List.mem_append] at hc
    rcases hc with (hy | hmo) | hdd
    · exact yearChars_digits hy1 hy2 c hy
    · exact pad2_digits hm99 c hmo
    · exact pad2_digits hd99 c hdd
  have htime_digits : ∀ c ∈ pad2 d.hour ++ pad2 d.minute ++ pad2 d.second,
      isDig c = true := by
    intro c hc
    simp only [List.mem_append] at hc
    rcases hc with (hho | hmin) | hsec
    · exact pad2_digits hh99 c hho
    · exact pad2_digits hmi99 c hmin
    · exact pad2_digits hs99 c hsec
  have hpre_nodot : '.' ∉ "vw_backup_".data ++ fmtChars d := by
    intro hmem
    rcases List.mem_append.mp hmem with hv | hf
    · exact absurd hv (by decide)
    · exact fmtChars_no_dot hy1 hy2 hm99 hd99 hh99 hmi99 hs99 hf
  have hdata : ("vw_backup_" ++ formatYmdHMS d ++ ext).data
      = ("vw_backup_".data ++ fmtChars d) ++ ext.data := by
    rw [String.data_append, String.data_append]
    rfl
  have hbase : (splitChar '.' (("vw_backup_".data ++ fmtChars d) ++ ext.data)).headD []
      = "vw_backup_".data ++ fmtChars d := by
    rcases hext with he | ⟨e, he⟩
    · rw [he, List.append_nil, splitChar_not_mem hpre_nodot]
      rfl
    · rw [he, splitChar_append hpre_nodot]
      rfl
  have hshape : "vw_backup_".data ++ fmtChars d
      = ['v', 'w'] ++ '_' :: (['b', 'a', 'c', 'k', 'u', 'p'] ++ '_' ::
          (((yearChars d.year ++ pad2 d.month) ++ pad2 d.day) ++ '_' ::
            (pad2 d.hour ++ pad2 d.minute ++ pad2 d.second))) := rfl
  have hsplit : splitChar '_' ("vw_backup_".data ++ fmtChars d)
      = [['v', 'w'], ['b', 'a', 'c', 'k', 'u', 'p'],
         (yearChars d.year ++ pad2 d.month) ++ pad2 d.day,
         pad2 d.hour ++ pad2 d.minute ++ pad2 d.second] := by
    rw [hshape, splitChar_append (by decide), splitChar_append (by decide),
        splitChar_append (no_underscore_of_digits hdate_digits),
        splitChar_not_mem (no_underscore_of_digits htime_digits)]
  unfold parseBackupDate
  rw [hdata, hbase, hsplit]
  show strptimeYmdHMS (((yearChars d.year ++ pad2 d.month) ++ pad2 d.day) ++ '_' ::
      (pad2 d.hour ++ pad2 d.minute ++ pad2 d.second)) = some d
  exact strptime_fmt hy1 hy2 hm1 hm2 hd1 hd2 hh hmi hs

/-- C9: for every name following the naming convention — `vw_backup_`
followed by the `"%Y%m%d_%H%M%S"` rendering of a valid datetime (the
convention's `YYYY` is a four-digit year), with an optional extension chain
starting with a dot — parsing the embedded timestamp out of the name and
reformatting it with the same pattern reproduces the embedded timestamp
string exactly. -/
theorem parse_format_round_trip (d : PyDateTime) (ext : String)
    (hy1 : 1000 ≤ d.year) (hy2 : d.year ≤ 9999)
    (hm1 : 1 ≤ d.month) (hm2 : d.month ≤ 12)
    (hd1 : 1 ≤ d.day) (hd2 : d.day ≤ daysInMonth d.year d.month)
    (hh : d.hour ≤ 23) (hmi : d.minute ≤ 59) (hs : d.second ≤ 59)
    (hext : ext.data = [] ∨ ∃ e, ext.data = '.' :: e) :
    (parseBackupDate ("vw_backup_" ++ formatYmdHMS d ++ ext)).map formatYmdHMS
      = some (formatYmdHMS d) := by
  rw [parse_fmt_name hy1 hy2 hm1 hm2 hd1 hd2 hh hmi hs ext hext]
  rfl

/-- Witness for C9: the concrete encrypted backup name
`vw_backup_20231001_120000.tar.gz.enc` round-trips. -/
theorem parse_format_round_trip_witness :
    (parseBackupDate ("vw_backup_" ++ formatYmdHMS ⟨2023, 10, 1, 12, 0, 0⟩
        ++ ".tar.gz.enc")).map formatYmdHMS
      = some (formatYmdHMS ⟨2023, 10, 1, 12, 0, 0⟩) :=
  parse_format_round_trip ⟨2023, 10, 1, 12, 0, 0⟩ ".tar.gz.enc"
    (by decide) (by decide) (by decide) (by decide) (by decide) (by decide)
    (by decide) (by decide) (by decide) (Or.inr ⟨_, rfl⟩)

end VW
